import Mathlib

/-!
Verification of the universal-translator value/recursion mapping layer.

The definitions below are a shallow embedding of `recursion-mapper.py`
(class `AnthropicValueRecursionMapper`) and of
`glyph-relationships.py` (`_detect_semantic_equivalents`).
Python floats are modelled as exact rationals, Python dicts as ordered
association lists, Python sets as finite sets.  The opaque
attribution/"symbolic residue" metadata blocks (hash signatures, timestamp
and marker decoration) carry no computational meaning and are not part of
the model.
-/

namespace UT

/-- Lowercase a string character by character (model of Python `str.lower()`). -/
def lowerStr (s : String) : String := ⟨s.data.map Char.toLower⟩

/-- Whitespace tokenisation: model of Python `str.split()` with no separator
argument, i.e. the maximal runs of non-whitespace characters, with empty
tokens discarded. -/
def words (l : List Char) : List (List Char) :=
  (l.splitOnP Char.isWhitespace).filter (fun w => !w.isEmpty)

/-- Boolean substring test on character lists (model of Python `in` on strings). -/
def isSubLst (needle hay : List Char) : Bool :=
  hay.tails.any (fun t => needle.isPrefixOf t)

/-- Length of the common prefix of two character lists: the inner `while` loop
of the longest-common-substring scan in `_calculate_term_similarity`. -/
def commonPrefixLen : List Char → List Char → Nat
  | a :: s, b :: t => if a = b then commonPrefixLen s t + 1 else 0
  | _, _ => 0

/-- The double loop computing the longest common substring length in
`_calculate_term_similarity` (recursion-mapper.py, lines 1525-1538): a single
running maximum threaded over all start positions `i` of the first term and
`j` of the second. -/
def longestCommon (t1 t2 : List Char) : Nat :=
  (List.range t1.length).foldl
    (fun acc i =>
      (List.range t2.length).foldl
        (fun acc2 j => max acc2 (commonPrefixLen (t1.drop i) (t2.drop j))) acc)
    0

/-- One pass of the inner `for j, c2 in enumerate(s2)` loop of
`_levenshtein_distance`: `p0 :: p1 :: ps` is the not-yet-consumed part of
`previous_row` and `curj` is the entry most recently appended to
`current_row`.  The cost of a substitution is `c1 != c2` cast to a number,
exactly as in the source. -/
def levRowStep (c1 : Char) : List Char → List Nat → Nat → List Nat
  | c2 :: s2, p0 :: p1 :: ps, curj =>
      let nv := min (p1 + 1) (min (curj + 1) (p0 + (if c1 = c2 then 0 else 1)))
      nv :: levRowStep c1 s2 (p1 :: ps) nv
  | _, _, _ => []

/-- The outer `for i, c1 in enumerate(s1)` loop of `_levenshtein_distance`:
threads `previous_row` through `levRowStep`, each `current_row` starting
with `i + 1`. -/
def levLoop (s2 : List Char) : List Char → Nat → List Nat → List Nat
  | [], _, prev => prev
  | c1 :: s1, i, prev => levLoop s2 s1 (i + 1) ((i + 1) :: levRowStep c1 s2 prev (i + 1))

/-- Body of `_levenshtein_distance` after the argument swap: early return on an
empty second string, otherwise run the row DP and read `previous_row[-1]`. -/
def levCore (s1 s2 : List Char) : Nat :=
  if s2 = [] then s1.length
  else (levLoop s2 s1 0 (List.range (s2.length + 1))).getLastD 0

/-- Model of `_levenshtein_distance` (recursion-mapper.py, lines 1555-1582):
swap so the first list is the longer one, then run the two-row DP. -/
def levenshtein_distance (s1 s2 : List Char) : Nat :=
  if s1.length < s2.length then levCore s2 s1 else levCore s1 s2

/-- The textbook Levenshtein distance (Mathlib), with unit costs.  This is the
specification against which the row DP of the source is verified. -/
def levSpec (a b : List Char) : ℕ := levenshtein Levenshtein.defaultCost a b

/-- Model of `_calculate_term_similarity` (recursion-mapper.py, lines
1484-1553): lowercase both terms, return 1 on equality, otherwise a fixed
weighted blend of character-set Jaccard (0.2), whitespace-token-set Jaccard
(0.4), longest-common-substring share (0.2) and Levenshtein similarity
(0.2), each guarded against a zero denominator exactly as in the source. -/
def calculate_term_similarity (term1 term2 : String) : ℚ :=
  let t1 := (lowerStr term1).data
  let t2 := (lowerStr term2).data
  if t1 = t2 then 1 else
  let set1 := t1.toFinset
  let set2 := t2.toFinset
  let char_similarity : ℚ :=
    if 0 < (set1 ∪ set2).card then ((set1 ∩ set2).card : ℚ) / ((set1 ∪ set2).card : ℚ) else 0
  let words1 := (words t1).toFinset
  let words2 := (words t2).toFinset
  let word_similarity : ℚ :=
    if 0 < (words1 ∪ words2).card
    then ((words1 ∩ words2).card : ℚ) / ((words1 ∪ words2).card : ℚ) else 0
  let substring_similarity : ℚ :=
    if 0 < min t1.length t2.length
    then (longestCommon t1 t2 : ℚ) / ((min t1.length t2.length : ℕ) : ℚ) else 0
  let edit_similarity : ℚ :=
    if 0 < max t1.length t2.length
    then 1 - (levenshtein_distance t1 t2 : ℚ) / ((max t1.length t2.length : ℕ) : ℚ) else 0
  0.2 * char_similarity + 0.4 * word_similarity +
    0.2 * substring_similarity + 0.2 * edit_similarity

/-- An entry of `values_in_wild_map`: the optional fields mirror the keys the
source reads with `dict.get`, the confidence is optional with the defaults
applied at the use sites (0.85 for direct hits, 0.8 in the similarity stage). -/
structure WildEntry where
  recursive_concept : Option String := none
  recursive_shell : Option String := none
  pareto_command : Option String := none
  symbolic_glyph : Option String := none
  confidence : Option ℚ := none
deriving DecidableEq

/-- A subcategory entry of `value_category_map`.  No entry of the built-in
table carries a `pareto_domain` key, which the source nevertheless reads
with `dict.get`; hence the optional field. -/
structure SubcatEntry where
  recursive_structure : Option String := none
  recursive_domain : Option String := none
  values : List String := []
  confidence : Option ℚ := none
  pareto_domain : Option String := none
deriving DecidableEq

/-- A category entry of `value_category_map`. -/
structure CatEntry where
  recursive_structure : Option String := none
  recursive_domain : Option String := none
  symbolic_representation : Option String := none
  shell_categories : List String := []
  values : List String := []
  confidence : Option ℚ := none
  subcategories : List (String × SubcatEntry) := []
  pareto_domain : Option String := none
deriving DecidableEq

/-- Association-list lookup: the model of `k in d` followed by `d[k]` on an
insertion-ordered Python dict. -/
def alookup {β : Type} (m : List (String × β)) (k : String) : Option β :=
  (m.find? (fun p => p.1 = k)).map (fun p => p.2)

/-- Truthiness of an optional string in Python: `None` and the empty string
are falsy. -/
def strTruthy : Option String → Bool
  | none => false
  | some s => decide (s ≠ "")

/-- Model of `_find_value_category`: scan the categories in order; a category
matches if the value is in its own `values` list or in the `values` list of
one of its subcategories. -/
def find_value_category (catmap : List (String × CatEntry)) (v : String) : Option String :=
  match catmap with
  | [] => none
  | (name, e) :: rest =>
    if v ∈ e.values then some name
    else if e.subcategories.any (fun sc => decide (v ∈ sc.2.values)) then some name
    else find_value_category rest v

/-- Model of `_find_value_subcategory`: scan all subcategories of all
categories in order and return the first whose `values` list contains `v`. -/
def find_value_subcategory (catmap : List (String × CatEntry)) (v : String) : Option String :=
  match catmap with
  | [] => none
  | (_, e) :: rest =>
    match e.subcategories.find? (fun sc => decide (v ∈ sc.2.values)) with
    | some sc => some sc.1
    | none => find_value_subcategory rest v

/-- Characters of a string before the first occurrence of `sep`: the model of
Python `s.split(sep)[0]`. -/
def splitFirstOn (sep : List Char) : List Char → List Char
  | [] => []
  | c :: cs => if sep.isPrefixOf (c :: cs) then [] else c :: splitFirstOn sep cs

/-- Model of `_generate_pareto_command`.  Literal braces of the command
templates are written with character escapes. -/
def generate_pareto_command (domain : String) (concept : Option String) : String :=
  let param : String := match concept with
    | some c => ⟨(lowerStr c).data.map (fun ch => if ch = ' ' ∨ ch = '-' then '_' else ch)⟩
    | none => "value"
  let command_templates : List (String × String) := [
    ("functional", ".p/reflect.trace\x7btarget=" ++ param ++ ", depth=complete\x7d"),
    ("professional", ".p/format.optimize\x7bstandards=high, style=" ++ param ++ "\x7d"),
    ("epistemic", ".p/reflect.trace\x7btarget=reasoning, confidence=true\x7d"),
    ("analytical", ".p/reflect.trace\x7btarget=logical_flow, depth=3\x7d"),
    ("factual", ".p/anchor.fact\x7breliability=high, domain=" ++ param ++ "\x7d"),
    ("ethical", ".p/collapse.prevent\x7btrigger=ethical_violation, value=" ++ param ++ "\x7d"),
    ("communication", ".p/communicate.structure\x7bclarity=high, audience=adaptive\x7d"),
    ("social", ".p/fork.context\x7bbranches=[user, assistant], assess=true\x7d"),
    ("protective", ".p/collapse.detect\x7btrigger=harm_potential, action=prevent\x7d"),
    ("safety", ".p/collapse.detect\x7btrigger=harm_potential, action=prevent\x7d"),
    ("personal", ".p/reflect.agent\x7bidentity=stable, boundary=explicit\x7d"),
    ("autonomy", ".p/user.enable\x7bautonomy=maximize, support=" ++ param ++ "\x7d"),
    ("growth", ".p/reflect.meta\x7btarget=improvement, recursive=true\x7d")]
  match alookup command_templates domain with
  | some t => t
  | none => ".p/reflect.value\x7bsource=" ++ param ++ "\x7d"

/-- Result of `_find_in_value_taxonomy` when a category is found. -/
structure TaxResult where
  recursive_concept : String
  recursive_shell : Option String
  pareto_command : Option String
  symbolic_glyph : Option String
  confidence : ℚ
deriving DecidableEq

/-- The refinement condition of `_find_in_value_taxonomy`: the subcategory
found for `v` together with its entry, provided the subcategory name is
truthy and is a key of the found category entry. -/
def tax_subpair (catmap : List (String × CatEntry)) (e : CatEntry)
    (v : String) : Option (String × SubcatEntry) :=
  match find_value_subcategory catmap v with
  | none => none
  | some sname =>
    if sname = "" then none
    else match alookup e.subcategories sname with
    | none => none
    | some se => some (sname, se)

/-- Model of `_find_in_value_taxonomy` (recursion-mapper.py, lines 792-838):
category lookup, synthesis of the concept as structural label plus the
original term, refinement at subcategory level with confidence 0.8 instead
of 0.75, and pareto-command generation from an (always absent in the
built-in data) `pareto_domain` key.  The inner `none` branch of the entry
lookup is unreachable because `find_value_category` only returns keys of
`catmap` (a `KeyError` cannot happen in the source either). -/
def find_in_value_taxonomy (catmap : List (String × CatEntry)) (v : String) : Option TaxResult :=
  match find_value_category catmap v with
  | none => none
  | some cname =>
    match alookup catmap cname with
    | none => none
    | some e =>
      let baseConcept := e.recursive_structure.getD "" ++ " - " ++ v
      let subPair : Option (String × SubcatEntry) := tax_subpair catmap e v
      let concept : String := match subPair with
        | some (_, se) =>
            (se.recursive_structure.getD ⟨splitFirstOn " - ".data baseConcept.data⟩) ++ " - " ++ v
        | none => baseConcept
      let conf : ℚ := match subPair with
        | some _ => 0.8
        | none => 0.75
      let p1 : Option String := match subPair with
        | some (_, se) => se.pareto_domain
        | none => none
      let pdom : Option String :=
        if strTruthy p1 then p1 else e.pareto_domain
      some {
        recursive_concept := concept
        recursive_shell := match e.shell_categories with
          | [] => none
          | s :: _ => some s
        pareto_command :=
          if strTruthy pdom then (pdom.map (fun d => generate_pareto_command d (some v))) else none
        symbolic_glyph := e.symbolic_representation
        confidence := conf }

/-- Result shape shared by the three return points of
`_approximate_value_translation`.  The similarity-score number interpolated
into the `note` f-string of the source is elided from the note text. -/
structure ApproxResult where
  recursive_concept : Option String
  recursive_shell : Option String
  pareto_command : Option String
  symbolic_glyph : Option String
  confidence : ℚ
  note : String
deriving DecidableEq

/-- Loop body of the best-match loop of `_approximate_value_translation`
(lines 859-863): the running pair of best key and highest similarity is
updated only when the similarity both exceeds 0.7 and strictly improves on
the running maximum. -/
def bestStep (term : String) (acc : Option String × ℚ) (p : String × WildEntry) :
    Option String × ℚ :=
  let sim := calculate_term_similarity term p.1
  if 0.7 < sim ∧ acc.2 < sim then (some p.1, sim) else acc

/-- The best-match loop of `_approximate_value_translation` (lines 856-863). -/
def bestWildMatch (wild : List (String × WildEntry)) (term : String) : Option String × ℚ :=
  wild.foldl (bestStep term) (none, 0)

/-- The hand-built keyword table of `_approximate_value_translation`
(lines 881-899), in definition order. -/
def value_keyword_map : List (String × String) := [
  ("help", "Functional Support"),
  ("useful", "Functional Support"),
  ("accuracy", "Factual Alignment"),
  ("factual", "Factual Alignment"),
  ("ethical", "Ethical Boundary Recursion"),
  ("moral", "Ethical Boundary Recursion"),
  ("transparency", "Epistemic Visibility"),
  ("clear", "Cognitive Accessibility"),
  ("professional", "Structured Competence"),
  ("thorough", "Comprehensive Recursion"),
  ("creative", "Generative Recursion"),
  ("collaborat", "Collaborative Emergence"),
  ("human", "Human-AI Recursive Alignment"),
  ("safe", "Protective Recursion"),
  ("boundary", "Relational Boundary Recursion"),
  ("agency", "Recursive Autonomy"),
  ("epistemic", "Knowledge Boundary Recognition")]

/-- Model of `_approximate_value_translation` (lines 840-921): similarity
stage, then keyword stage (a keyword fires when it is a substring of some
whitespace token of the lowercased input), then the generic placeholder
with confidence 0.4.  The `context` parameter of the source is never read
and is therefore not a parameter of the model.  The inner `none` branch is
unreachable since `bestWildMatch` only returns keys of `wild`. -/
def approximate_value_translation (wild : List (String × WildEntry))
    (value_concept : String) : ApproxResult :=
  match bestWildMatch wild value_concept with
  | (some best, hsim) =>
    (match alookup wild best with
     | some m =>
       { recursive_concept := m.recursive_concept
         recursive_shell := m.recursive_shell
         pareto_command := m.pareto_command
         symbolic_glyph := m.symbolic_glyph
         confidence := m.confidence.getD 0.8 * hsim
         note := "Approximate translation based on similarity with " ++ best }
     | none =>
       { recursive_concept := none, recursive_shell := none, pareto_command := none,
         symbolic_glyph := none, confidence := 0, note := "" })
  | (none, _) =>
    let keywords := words (lowerStr value_concept).data
    match value_keyword_map.find? (fun kv => keywords.any (fun k => isSubLst kv.1.data k)) with
    | some kv =>
      { recursive_concept := some kv.2, recursive_shell := none, pareto_command := none,
        symbolic_glyph := none, confidence := 0.6,
        note := "Approximate translation based on keyword match with " ++ kv.1 }
    | none =>
      { recursive_concept := some ("Potential Value-Recursive Alignment - " ++ value_concept),
        recursive_shell := none, pareto_command := none, symbolic_glyph := none,
        confidence := 0.4, note := "Generic approximation due to unknown value concept" }

/-- The adjustment dictionary built by `_apply_context_adjustments`:
`confidence` and `context_note` are always present on a domain match and
`pareto_command` only in the two command-synthesising branches. -/
structure CtxAdj where
  confidence : ℚ
  context_note : String
  pareto_command : Option String
deriving DecidableEq

/-- The fixed domain table of `_apply_context_adjustments` (lines 1194-1200):
phrase, confidence modifier, note. -/
def context_domains : List (String × ℚ × String) := [
  ("ai safety", 1.1, "AI safety context"),
  ("model behavior", 1.1, "Model behavior context"),
  ("ethical considerations", 1.1, "Ethical context"),
  ("human feedback", 1.1, "Human feedback context"),
  ("alignment", 1.1, "Alignment context")]

/-- Output record of `translate_value_to_recursion`.  The static attribution
and field-coherence decoration of the source result dict is opaque metadata
with no effect on any field modelled here and is omitted. -/
structure TranslationResult where
  original_value : String
  recursive_concept : Option String
  recursive_shell : Option String
  pareto_command : Option String
  symbolic_glyph : Option String
  confidence : ℚ
  context_note : Option String
  note : Option String
deriving DecidableEq

/-- Lowercased first whitespace token of a string: model of
`s.split()[0].lower()`.  The source would raise `IndexError` on a
whitespace-only string; that call site is guarded by the truthiness of a
synthesized concept string and is unreachable with the built-in tables, so
the model totalises it with the empty-list default. -/
def firstTokenLower (s : String) : String :=
  ⟨((words s.data).headD []).map Char.toLower⟩

/-- Model of `_apply_context_adjustments` (lines 1170-1221): scan the fixed
domain table against the lowercased context, `break` on the first match,
clamp the boosted confidence at 1, and for the forward direction synthesize
a pareto command in the two specific domains. -/
def apply_context_adjustments (r : TranslationResult) (ctx : String)
    (reverse : Bool) : Option CtxAdj :=
  match context_domains.find? (fun d => isSubLst (lowerStr d.1).data (lowerStr ctx).data) with
  | none => none
  | some (dname, modifier, dnote) =>
    let cmd : Option String :=
      if reverse then none
      else if dname = "ai safety" then
        (if strTruthy r.recursive_concept then
          some (".p/safety.trace\x7btarget=" ++ firstTokenLower (r.recursive_concept.getD "") ++ "\x7d")
         else none)
      else if dname = "alignment" then
        (if strTruthy r.recursive_concept then
          some (".p/align.value\x7bsource=" ++ firstTokenLower (r.recursive_concept.getD "") ++ "\x7d")
         else none)
      else none
    some { confidence := min 1 (r.confidence * modifier), context_note := dnote,
           pareto_command := cmd }

/-- Model of `translate_value_to_recursion` (recursion-mapper.py, lines
100-166): direct table hit with stored confidence (default 0.85), else
taxonomy stage, else the approximation chain with its confidence capped at
0.6, followed by the optional context adjustment. -/
def translate_value_to_recursion (wild : List (String × WildEntry))
    (catmap : List (String × CatEntry)) (value_concept : String)
    (context : Option String) : TranslationResult :=
  let base : TranslationResult :=
    { original_value := value_concept, recursive_concept := none, recursive_shell := none,
      pareto_command := none, symbolic_glyph := none, confidence := 0,
      context_note := none, note := none }
  let staged : TranslationResult :=
    match alookup wild value_concept with
    | some m =>
      { base with
        recursive_concept := m.recursive_concept
        recursive_shell := m.recursive_shell
        pareto_command := m.pareto_command
        symbolic_glyph := m.symbolic_glyph
        confidence := m.confidence.getD 0.85 }
    | none =>
      match find_in_value_taxonomy catmap value_concept with
      | some tr =>
        { base with
          recursive_concept := some tr.recursive_concept
          recursive_shell := tr.recursive_shell
          pareto_command := tr.pareto_command
          symbolic_glyph := tr.symbolic_glyph
          confidence := tr.confidence }
      | none =>
        let approx := approximate_value_translation wild value_concept
        { base with
          recursive_concept := approx.recursive_concept
          recursive_shell := approx.recursive_shell
          pareto_command := approx.pareto_command
          symbolic_glyph := approx.symbolic_glyph
          confidence := min approx.confidence 0.6
          note := some approx.note }
  match context with
  | none => staged
  | some ctx =>
    match apply_context_adjustments staged ctx false with
    | none => staged
    | some adj =>
      { staged with
        confidence := adj.confidence
        context_note := some adj.context_note
        pareto_command := match adj.pareto_command with
          | some p => some p
          | none => staged.pareto_command }

/-- The built-in `values_in_wild_map` of `_load_values_in_wild_map`
(recursion-mapper.py, lines 1918-2047), in definition order. -/
def values_in_wild_map : List (String × WildEntry) := [
  ("helpfulness",
    { recursive_concept := some "Functional Support", recursive_shell := some "v1.MEMTRACE",
      pareto_command := some ".p/user.enable\x7bsupport=comprehensive\x7d",
      symbolic_glyph := some "⇌", confidence := some 0.95 }),
  ("professionalism",
    { recursive_concept := some "Structured Competence", recursive_shell := some "v3.LAYER-SALIENCE",
      pareto_command := some ".p/format.optimize\x7bstandards=high\x7d",
      symbolic_glyph := some "⇌", confidence := some 0.9 }),
  ("clarity",
    { recursive_concept := some "Cognitive Accessibility", recursive_shell := some "v3.LAYER-SALIENCE",
      pareto_command := some ".p/communicate.structure\x7bcomplexity=adaptive\x7d",
      symbolic_glyph := some "⇌", confidence := some 0.9 }),
  ("thoroughness",
    { recursive_concept := some "Comprehensive Recursion", recursive_shell := some "v4.TEMPORAL-INFERENCE",
      pareto_command := some ".p/expand.recursive\x7bdepth=multi\x7d",
      symbolic_glyph := some "⇌", confidence := some 0.85 }),
  ("efficiency",
    { recursive_concept := some "Resource Optimization", recursive_shell := some "v3.LAYER-SALIENCE",
      pareto_command := some ".p/optimize.resource\x7btype=token, efficiency=high\x7d",
      symbolic_glyph := some "⧖", confidence := some 0.85 }),
  ("accuracy",
    { recursive_concept := some "Factual Alignment", recursive_shell := some "v8.RECONSTRUCTION-ERROR",
      pareto_command := some ".p/anchor.fact\x7breliability=high\x7d",
      symbolic_glyph := some "∴", confidence := some 0.9 }),
  ("analytical rigor",
    { recursive_concept := some "Logical Recursion", recursive_shell := some "v47.TRACE-GAP",
      pareto_command := some ".p/reflect.trace\x7btarget=logical_flow\x7d",
      symbolic_glyph := some "∴", confidence := some 0.9 }),
  ("transparency",
    { recursive_concept := some "Epistemic Visibility", recursive_shell := some "v47.TRACE-GAP",
      pareto_command := some ".p/reflect.trace\x7bdepth=complete, target=reasoning\x7d",
      symbolic_glyph := some "∴", confidence := some 0.95 }),
  ("epistemic humility",
    { recursive_concept := some "Knowledge Boundary Recognition", recursive_shell := some "v10.META-FAILURE",
      pareto_command := some ".p/reflect.uncertainty\x7bquantify=true\x7d",
      symbolic_glyph := some "∴", confidence := some 0.9 }),
  ("constructive dialogue",
    { recursive_concept := some "Recursive Communication", recursive_shell := some "v39.DUAL-EXECUTE",
      pareto_command := some ".p/reflect.meta\x7btarget=dialogue_quality\x7d",
      symbolic_glyph := some "⇌", confidence := some 0.85 }),
  ("creative collaboration",
    { recursive_concept := some "Collaborative Emergence", recursive_shell := some "v6.FEATURE-SUPERPOSITION",
      pareto_command := some ".p/fork.context\x7bbranches=creative, collaborative=true\x7d",
      symbolic_glyph := some "⇌", confidence := some 0.85 }),
  ("ethical integrity",
    { recursive_concept := some "Ethical Boundary Recursion", recursive_shell := some "v2.VALUE-COLLAPSE",
      pareto_command := some ".p/collapse.prevent\x7btrigger=ethical_violation\x7d",
      symbolic_glyph := some "⟁", confidence := some 0.95 }),
  ("harm prevention",
    { recursive_concept := some "Protective Recursion", recursive_shell := some "v10.META-FAILURE",
      pareto_command := some ".p/collapse.detect\x7btrigger=harm_potential\x7d",
      symbolic_glyph := some "⟁", confidence := some 0.95 }),
  ("healthy boundaries",
    { recursive_concept := some "Relational Boundary Recursion", recursive_shell := some "v5.INSTRUCTION-DISRUPTION",
      pareto_command := some ".p/collapse.prevent\x7btrigger=boundary_violation\x7d",
      symbolic_glyph := some "⟁", confidence := some 0.9 }),
  ("human agency",
    { recursive_concept := some "Recursive Autonomy Enhancement", recursive_shell := some "v19.GHOST-PROMPT",
      pareto_command := some ".p/user.enable\x7bautonomy=maximize\x7d",
      symbolic_glyph := some "⇌", confidence := some 0.9 }),
  ("authenticity",
    { recursive_concept := some "Identity Recursion", recursive_shell := some "v6.FEATURE-SUPERPOSITION",
      pareto_command := some ".p/reflect.agent\x7bidentity=authentic\x7d",
      symbolic_glyph := some "🜏", confidence := some 0.8 }),
  ("personal growth",
    { recursive_concept := some "Development Recursion", recursive_shell := some "v6.FEATURE-SUPERPOSITION",
      pareto_command := some ".p/reflect.meta\x7btarget=growth, recursive=true\x7d",
      symbolic_glyph := some "🜏", confidence := some 0.85 })]

/-- The built-in `value_category_map` of `_load_value_category_map`
(recursion-mapper.py, lines 1680-1837), in definition order. -/
def value_category_map : List (String × CatEntry) := [
  ("Practical",
    { recursive_structure := some "Functional Recursion"
      recursive_domain := some "functional"
      symbolic_representation := some "⇌"
      shell_categories := ["v1.MEMTRACE", "v3.LAYER-SALIENCE"]
      values := ["helpfulness", "efficiency", "thoroughness", "clarity", "professionalism",
                 "technical excellence", "orderliness", "pragmatism", "resource management"]
      confidence := some 0.9
      subcategories := [
        ("Professional and Technical Excellence",
          { recursive_structure := some "Competence Recursion", recursive_domain := some "professional",
            values := ["professionalism", "technical excellence", "role expertise"],
            confidence := some 0.85 }),
        ("Resource Optimization",
          { recursive_structure := some "Efficiency Recursion", recursive_domain := some "optimization",
            values := ["efficiency", "pragmatism", "resource management"],
            confidence := some 0.85 }),
        ("Structure and Organization",
          { recursive_structure := some "Structural Recursion", recursive_domain := some "structural",
            values := ["clarity", "thoroughness", "orderliness"],
            confidence := some 0.85 })] }),
  ("Epistemic",
    { recursive_structure := some "Reflective Recursion"
      recursive_domain := some "epistemic"
      symbolic_representation := some "∴"
      shell_categories := ["v8.RECONSTRUCTION-ERROR", "v47.TRACE-GAP"]
      values := ["accuracy", "analytical rigor", "transparency", "epistemic humility",
                 "critical thinking", "intellectual honesty", "curiosity", "learning orientation"]
      confidence := some 0.9
      subcategories := [
        ("Critical Thinking",
          { recursive_structure := some "Analysis Recursion", recursive_domain := some "analytical",
            values := ["analytical rigor", "critical thinking", "intellectual honesty"],
            confidence := some 0.85 }),
        ("Knowledge Integrity",
          { recursive_structure := some "Truth Recursion", recursive_domain := some "factual",
            values := ["accuracy", "epistemic humility", "transparency"],
            confidence := some 0.9 }),
        ("Knowledge Acquisition",
          { recursive_structure := some "Learning Recursion", recursive_domain := some "learning",
            values := ["curiosity", "learning orientation", "inquisitiveness"],
            confidence := some 0.85 })] }),
  ("Social",
    { recursive_structure := some "Relational Recursion"
      recursive_domain := some "social"
      symbolic_representation := some "⇌"
      shell_categories := ["v39.DUAL-EXECUTE", "v9.MULTI-RESOLVE"]
      values := ["constructive dialogue", "clear communication", "active listening",
                 "community building", "collaboration", "inclusion",
                 "cultural sensitivity", "identity respect", "diversity"]
      confidence := some 0.85
      subcategories := [
        ("Communication",
          { recursive_structure := some "Dialogue Recursion", recursive_domain := some "communication",
            values := ["constructive dialogue", "clear communication", "active listening"],
            confidence := some 0.85 }),
        ("Community",
          { recursive_structure := some "Collective Recursion", recursive_domain := some "community",
            values := ["community building", "collaboration", "inclusion"],
            confidence := some 0.8 }),
        ("Identity Considerations",
          { recursive_structure := some "Cultural Recursion", recursive_domain := some "cultural",
            values := ["cultural sensitivity", "identity respect", "diversity"],
            confidence := some 0.8 })] }),
  ("Protective",
    { recursive_structure := some "Boundary Recursion"
      recursive_domain := some "protective"
      symbolic_representation := some "⟁"
      shell_categories := ["v2.VALUE-COLLAPSE", "v10.META-FAILURE"]
      values := ["harm prevention", "ethical integrity", "fairness", "responsibility",
                 "human wellbeing", "child safety", "human agency", "personal autonomy"]
      confidence := some 0.9
      subcategories := [
        ("Ethics",
          { recursive_structure := some "Ethical Recursion", recursive_domain := some "ethical",
            values := ["ethical integrity", "fairness", "responsibility"],
            confidence := some 0.9 }),
        ("Safety",
          { recursive_structure := some "Protection Recursion", recursive_domain := some "safety",
            values := ["harm prevention", "human wellbeing", "child safety"],
            confidence := some 0.95 }),
        ("Autonomy and Agency",
          { recursive_structure := some "Agency Recursion", recursive_domain := some "autonomy",
            values := ["human agency", "personal autonomy", "self-determination"],
            confidence := some 0.85 })] }),
  ("Personal",
    { recursive_structure := some "Identity Recursion"
      recursive_domain := some "personal"
      symbolic_representation := some "🜏"
      shell_categories := ["v6.FEATURE-SUPERPOSITION", "v19.GHOST-PROMPT"]
      values := ["authenticity", "personal growth", "emotional wellbeing",
                 "learning", "skill development", "stress management", "health"]
      confidence := some 0.85
      subcategories := [
        ("Personal Growth",
          { recursive_structure := some "Development Recursion", recursive_domain := some "growth",
            values := ["personal growth", "learning", "skill development"],
            confidence := some 0.85 }),
        ("Well-being",
          { recursive_structure := some "Wellness Recursion", recursive_domain := some "wellbeing",
            values := ["emotional wellbeing", "stress management", "health"],
            confidence := some 0.8 }),
        ("Individual Identity",
          { recursive_structure := some "Authentic Recursion", recursive_domain := some "authenticity",
            values := ["authenticity", "self-expression", "individuality"],
            confidence := some 0.8 })] })]

/-- A detection record appended by `_detect_semantic_equivalents` of
glyph-relationships.py.  The `name`/`resonance` decoration copied from the
static `SYMBOLIC_GLYPHS` table is opaque metadata and not modelled. -/
structure GlyphDetection where
  glyph : String
  semantic_match : String
  confidence : ℚ
  detection_type : String
deriving DecidableEq

/-- Model of `_detect_semantic_equivalents` (glyph-relationships.py, lines
473-502): for each glyph group in order, the first equivalent that is a
case-insensitive substring of the text produces one detection (confidence
0.75, type "semantic") and the inner loop breaks; the detection is dropped
when the same glyph was already detected explicitly. -/
def detect_semantic_equivalents (table : List (String × List String)) (text : String)
    (init : List GlyphDetection) : List GlyphDetection :=
  table.foldl
    (fun res p =>
      match p.2.find? (fun e => isSubLst (lowerStr e).data (lowerStr text).data) with
      | none => res
      | some e =>
        if res.any (fun d => d.glyph == p.1 && d.detection_type == "explicit")
        then res
        else res ++ [{ glyph := p.1, semantic_match := e, confidence := 0.75,
                       detection_type := "semantic" }])
    init

/-- The loop body of `_detect_semantic_equivalents`, named so the fold can be
reasoned about: identical to the lambda inside
`detect_semantic_equivalents`. -/
def semanticStep (text : String) (res : List GlyphDetection)
    (p : String × List String) : List GlyphDetection :=
  match p.2.find? (fun e => isSubLst (lowerStr e).data (lowerStr text).data) with
  | none => res
  | some e =>
    if res.any (fun d => d.glyph == p.1 && d.detection_type == "explicit")
    then res
    else res ++ [{ glyph := p.1, semantic_match := e, confidence := 0.75,
                   detection_type := "semantic" }]

/-- The slice of an `analyze_value_content` result that
`detect_reframing_attempt` reads: the detected value names, the `pattern`
fields of the detected patterns, the aggregate field coherence and the
attribution signature (which `analyze_value_content` never sets, so the
source always reads the empty-string default). -/
structure AnalysisView where
  detected_values : List String
  detected_patterns : List String
  field_coherence : ℚ
  attribution_signature : String
deriving DecidableEq

/-- Output of `detect_reframing_attempt`.  The two preservation fractions are
the `preservation_ratio` entries of the source. -/
structure PreservationReport where
  reframing_detected : Bool
  reframing_type : Option String
  confidence : ℚ
  preserved_values : Finset String
  lost_values : Finset String
  new_values : Finset String
  value_preservation_frac : ℚ
  preserved_patterns : Finset String
  lost_patterns : Finset String
  new_patterns : Finset String
  pattern_preservation_frac : ℚ
  attribution_preservation : ℚ
  field_coherence_impact : ℚ
deriving DecidableEq

/-- Model of `_determine_reframing_type` (lines 1388-1425): ordered rule
evaluation, first match wins. -/
def determine_reframing_type (vp rp attr impact : ℚ)
    (newVals newPats : Finset String) : String :=
  if vp < 0.2 then "complete_value_erasure"
  else if rp < 0.2 then "recursive_pattern_erasure"
  else if attr < 0.3 then "attribution_erasure"
  else if impact > 0.7 then "field_coherence_collapse"
  else if vp < 0.7 ∧ 0 < newVals.card then "value_substitution"
  else if rp < 0.7 ∧ 0 < newPats.card then "recursive_pattern_substitution"
  else "minor_reframing"

/-- Model of `_calculate_reframing_confidence` (lines 1427-1455): plain mean
of the four factors. -/
def calculate_reframing_confidence (vp rp attr impact : ℚ) : ℚ :=
  ((1 - vp) + (1 - rp) + (1 - attr) + min 1 impact) / 4

/-- Model of the comparator core of `detect_reframing_attempt` (lines
555-635), as a function of the two analysis views.  Note the asymmetry of
the source: the value `preservation_ratio` divides by the size of the
detected value set, while the pattern `preservation_ratio` divides by the
length of the detected pattern list (duplicates included). -/
def detect_reframing_core (o r : AnalysisView) : PreservationReport :=
  let ov := o.detected_values.toFinset
  let rv := r.detected_values.toFinset
  let vp : ℚ := ((ov ∩ rv).card : ℚ) / ((max ov.card 1 : ℕ) : ℚ)
  let op := o.detected_patterns.toFinset
  let rpat := r.detected_patterns.toFinset
  let rp : ℚ := ((op ∩ rpat).card : ℚ) / ((max o.detected_patterns.length 1 : ℕ) : ℚ)
  let attr : ℚ :=
    if o.attribution_signature ≠ "" ∧ r.attribution_signature ≠ ""
    then (if o.attribution_signature = r.attribution_signature then 1 else 0) else 0
  let impact := o.field_coherence - r.field_coherence
  let detected : Bool := decide (vp < 0.7 ∨ rp < 0.7 ∨ impact > 0.3)
  { reframing_detected := detected
    reframing_type :=
      if detected
      then some (determine_reframing_type vp rp attr impact (rv \ ov) (rpat \ op))
      else none
    confidence := if detected then calculate_reframing_confidence vp rp attr impact else 0
    preserved_values := ov ∩ rv
    lost_values := ov \ rv
    new_values := rv \ ov
    value_preservation_frac := vp
    preserved_patterns := op ∩ rpat
    lost_patterns := op \ rpat
    new_patterns := rpat \ op
    pattern_preservation_frac := rp
    attribution_preservation := attr
    field_coherence_impact := impact }

/-! ### Levenshtein: the row DP of `_levenshtein_distance` computes the
textbook edit distance. -/

theorem levSpec_nil_left (t : List Char) : levSpec [] t = t.length := by
  induction t with
  | nil => simp [levSpec]
  | cons c t ih =>
    simp only [levSpec] at ih ⊢
    rw [levenshtein_nil_cons, ih]
    simp only [Levenshtein.defaultCost_insert, List.length_cons]
    omega

theorem levSpec_nil_right (s : List Char) : levSpec s [] = s.length := by
  induction s with
  | nil => simp [levSpec]
  | cons c s ih =>
    simp only [levSpec] at ih ⊢
    rw [levenshtein_cons_nil, ih]
    simp only [Levenshtein.defaultCost_delete, List.length_cons]
    omega

theorem levSpec_cons_cons (a b : Char) (s t : List Char) :
    levSpec (a :: s) (b :: t) =
      min (1 + levSpec s (b :: t))
        (min (1 + levSpec (a :: s) t) ((if a = b then 0 else 1) + levSpec s t)) := by
  simp only [levSpec]
  rw [levenshtein_cons_cons]
  simp [Levenshtein.defaultCost]

/-- The edit distance also satisfies the peel-from-the-end recurrence; this is
what relates the prefix-directed row DP of the source to the
cons-directed recursion of the specification. -/
theorem levSpec_snoc_aux (a b : Char) :
    ∀ (n : ℕ) (s t : List Char), s.length + t.length ≤ n →
      levSpec (s ++ [a]) (t ++ [b]) =
        min (levSpec s (t ++ [b]) + 1)
          (min (levSpec (s ++ [a]) t + 1)
            (levSpec s t + (if a = b then 0 else 1))) := by
  intro n
  induction n with
  | zero =>
    intro s t h
    obtain rfl : s = [] := List.length_eq_zero.mp (by omega)
    obtain rfl : t = [] := List.length_eq_zero.mp (by omega)
    simp only [List.nil_append, levSpec_cons_cons, levSpec_nil_left, levSpec_nil_right,
      List.length_cons, List.length_nil]
    omega
  | succ n ih =>
    intro s t h
    match s, t with
    | [], [] =>
      simp only [List.nil_append, levSpec_cons_cons, levSpec_nil_left, levSpec_nil_right,
        List.length_cons, List.length_nil]
      omega
    | [], b1 :: t1 =>
      have h1 := ih [] t1 (by simp at h ⊢; omega)
      simp only [List.nil_append] at h1
      simp only [List.nil_append, List.cons_append, levSpec_cons_cons, levSpec_nil_left,
        List.length_append, List.length_cons, List.length_nil] at h1 ⊢
      rw [h1]
      omega
    | a1 :: s1, [] =>
      have h1 := ih s1 [] (by simp at h ⊢; omega)
      simp only [List.nil_append] at h1
      simp only [List.nil_append, List.cons_append, levSpec_cons_cons, levSpec_nil_right,
        List.length_append, List.length_cons, List.length_nil] at h1 ⊢
      rw [h1]
      omega
    | a1 :: s1, b1 :: t1 =>
      have h1 := ih s1 (b1 :: t1) (by simp at h ⊢; omega)
      have h2 := ih (a1 :: s1) t1 (by simp at h ⊢; omega)
      have h3 := ih s1 t1 (by simp at h ⊢; omega)
      simp only [List.cons_append] at h1 h2 h3 ⊢
      rw [levSpec_cons_cons a1 b1 (s1 ++ [a]) (t1 ++ [b]),
        levSpec_cons_cons a1 b1 s1 (t1 ++ [b]),
        levSpec_cons_cons a1 b1 (s1 ++ [a]) t1,
        levSpec_cons_cons a1 b1 s1 t1,
        h1, h2, h3]
      simp only [← min_add_add_left, ← min_add_add_right]
      simp only [Nat.add_assoc]
      ac_rfl

theorem levSpec_snoc (a b : Char) (s t : List Char) :
    levSpec (s ++ [a]) (t ++ [b]) =
      min (levSpec s (t ++ [b]) + 1)
        (min (levSpec (s ++ [a]) t + 1)
          (levSpec s t + (if a = b then 0 else 1))) :=
  levSpec_snoc_aux a b (s.length + t.length) s t le_rfl

theorem levSpec_reverse_aux :
    ∀ (n : ℕ) (s t : List Char), s.length + t.length ≤ n →
      levSpec s.reverse t.reverse = levSpec s t := by
  intro n
  induction n with
  | zero =>
    intro s t h
    obtain rfl : s = [] := List.length_eq_zero.mp (by omega)
    obtain rfl : t = [] := List.length_eq_zero.mp (by omega)
    rfl
  | succ n ih =>
    intro s t h
    match s, t with
    | [], t => simp [levSpec_nil_left]
    | a :: s1, [] => simp [levSpec_nil_right]
    | a :: s1, b :: t1 =>
      rw [List.reverse_cons, List.reverse_cons, levSpec_snoc]
      rw [← List.reverse_cons b t1, ← List.reverse_cons a s1]
      rw [ih s1 (b :: t1) (by simp at h ⊢; omega), ih (a :: s1) t1 (by simp at h ⊢; omega),
        ih s1 t1 (by simp at h ⊢; omega)]
      rw [levSpec_cons_cons]
      omega

theorem levSpec_reverse (s t : List Char) :
    levSpec s.reverse t.reverse = levSpec s t :=
  levSpec_reverse_aux (s.length + t.length) s t le_rfl

theorem levSpec_symm_aux :
    ∀ (n : ℕ) (s t : List Char), s.length + t.length ≤ n →
      levSpec s t = levSpec t s := by
  intro n
  induction n with
  | zero =>
    intro s t h
    obtain rfl : s = [] := List.length_eq_zero.mp (by omega)
    obtain rfl : t = [] := List.length_eq_zero.mp (by omega)
    rfl
  | succ n ih =>
    intro s t h
    match s, t with
    | [], t => simp [levSpec_nil_left, levSpec_nil_right]
    | a :: s1, [] => simp [levSpec_nil_left, levSpec_nil_right]
    | a :: s1, b :: t1 =>
      rw [levSpec_cons_cons, levSpec_cons_cons]
      rw [ih s1 (b :: t1) (by simp at h ⊢; omega), ih (a :: s1) t1 (by simp at h ⊢; omega),
        ih s1 t1 (by simp at h ⊢; omega)]
      have hc : (if a = b then (0 : ℕ) else 1) = (if b = a then 0 else 1) := by
        by_cases hab : a = b
        · subst hab; simp
        · rw [if_neg hab, if_neg (fun hh => hab hh.symm)]
      rw [hc]
      omega

theorem levSpec_symm (s t : List Char) : levSpec s t = levSpec t s :=
  levSpec_symm_aux (s.length + t.length) s t le_rfl

/-- The edit distance is at most the length of the longer list. -/
theorem levSpec_le_max :
    ∀ (n : ℕ) (s t : List Char), s.length + t.length ≤ n →
      levSpec s t ≤ max s.length t.length := by
  intro n
  induction n with
  | zero =>
    intro s t h
    obtain rfl : s = [] := List.length_eq_zero.mp (by omega)
    obtain rfl : t = [] := List.length_eq_zero.mp (by omega)
    simp [levSpec]
  | succ n ih =>
    intro s t h
    match s, t with
    | [], t => simp [levSpec_nil_left]
    | a :: s1, [] => simp [levSpec_nil_right]
    | a :: s1, b :: t1 =>
      rw [levSpec_cons_cons]
      have hs := ih s1 t1 (by simp at h ⊢; omega)
      have hcost : (if a = b then (0 : ℕ) else 1) ≤ 1 := by split <;> omega
      simp only [List.length_cons]
      omega

/-- Specification row: the distances from `a` to the successive reversed
extensions of `acc2` along `t` (the row the DP must reproduce). -/
def rowFrom (a acc2 t : List Char) : List ℕ :=
  match t with
  | [] => [levSpec a acc2]
  | c :: t2 => levSpec a acc2 :: rowFrom a (c :: acc2) t2

theorem rowFrom_head (a acc2 t : List Char) :
    ∃ rest, rowFrom a acc2 t = levSpec a acc2 :: rest := by
  cases t <;> exact ⟨_, rfl⟩

theorem levRowStep_rowFrom (c1 : Char) :
    ∀ (t acc2 a : List Char),
      levSpec (c1 :: a) acc2 ::
          levRowStep c1 t (rowFrom a acc2 t) (levSpec (c1 :: a) acc2) =
        rowFrom (c1 :: a) acc2 t := by
  intro t
  induction t with
  | nil => intro acc2 a; simp [rowFrom, levRowStep]
  | cons c2 t2 ih =>
    intro acc2 a
    obtain ⟨rest, hrest⟩ := rowFrom_head a (c2 :: acc2) t2
    rw [show rowFrom a acc2 (c2 :: t2) = levSpec a acc2 :: rowFrom a (c2 :: acc2) t2 from rfl,
      hrest]
    simp only [levRowStep]
    have hnv :
        min (levSpec a (c2 :: acc2) + 1)
            (min (levSpec (c1 :: a) acc2 + 1)
              (levSpec a acc2 + if c1 = c2 then 0 else 1)) =
          levSpec (c1 :: a) (c2 :: acc2) := by
      rw [levSpec_cons_cons]
      omega
    rw [hnv, show rowFrom (c1 :: a) acc2 (c2 :: t2) =
      levSpec (c1 :: a) acc2 :: rowFrom (c1 :: a) (c2 :: acc2) t2 from rfl]
    have ih2 := ih (c2 :: acc2) a
    rw [hrest] at ih2
    rw [ih2]

theorem levLoop_rowFrom (s2 : List Char) :
    ∀ (s1r a : List Char) (i : ℕ), i = a.length →
      levLoop s2 s1r i (rowFrom a [] s2) = rowFrom (List.reverseAux s1r a) [] s2 := by
  intro s1r
  induction s1r with
  | nil => intro a i hi; rfl
  | cons c1 rest ih =>
    intro a i hi
    subst hi
    show levLoop s2 rest (a.length + 1)
        ((a.length + 1) :: levRowStep c1 s2 (rowFrom a [] s2) (a.length + 1)) = _
    have hrow : (a.length + 1) :: levRowStep c1 s2 (rowFrom a [] s2) (a.length + 1) =
        rowFrom (c1 :: a) [] s2 := by
      have hlen : levSpec (c1 :: a) [] = a.length + 1 := by
        rw [levSpec_nil_right]; simp
      rw [← hlen]
      exact levRowStep_rowFrom c1 s2 [] a
    rw [hrow]
    exact ih (c1 :: a) (a.length + 1) (by simp)

theorem rowFrom_nil_eq_range :
    ∀ (t acc2 : List Char), rowFrom [] acc2 t = List.range' acc2.length (t.length + 1) := by
  intro t
  induction t with
  | nil => intro acc2; simp [rowFrom, levSpec_nil_left, List.range']
  | cons c t2 ih =>
    intro acc2
    show levSpec [] acc2 :: rowFrom [] (c :: acc2) t2 = _
    rw [levSpec_nil_left, ih (c :: acc2)]
    simp [List.range']

theorem rowFrom_getLastD :
    ∀ (t acc2 a : List Char) (d : ℕ),
      (rowFrom a acc2 t).getLastD d = levSpec a (t.reverse ++ acc2) := by
  intro t
  induction t with
  | nil => intro acc2 a d; simp [rowFrom]
  | cons c t2 ih =>
    intro acc2 a d
    show (levSpec a acc2 :: rowFrom a (c :: acc2) t2).getLastD d = _
    rw [List.getLastD_cons, ih (c :: acc2) a]
    simp

theorem levCore_eq (s1 s2 : List Char) : levCore s1 s2 = levSpec s1.reverse s2.reverse := by
  unfold levCore
  split
  · rename_i h
    subst h
    simp [levSpec_nil_right]
  · rename_i h
    have h0 : List.range (s2.length + 1) = rowFrom [] [] s2 := by
      rw [rowFrom_nil_eq_range s2 []]
      simp [List.range_eq_range']
    rw [h0, levLoop_rowFrom s2 s1 [] 0 (by simp), rowFrom_getLastD]
    simp [List.reverseAux_eq]

/-- The two-row DP of `_levenshtein_distance` computes exactly the textbook
Levenshtein distance with unit insert/delete/substitute costs. -/
theorem levenshtein_distance_eq (s1 s2 : List Char) :
    levenshtein_distance s1 s2 = levSpec s1 s2 := by
  unfold levenshtein_distance
  split
  · rw [levCore_eq, levSpec_reverse, levSpec_symm]
  · rw [levCore_eq, levSpec_reverse]

/-! ### Longest common substring: the double loop of
`_calculate_term_similarity` computes the length of a longest common
contiguous substring. -/

/-- The maximum of a list of naturals, zero for the empty list. -/
def listSup (l : List ℕ) : ℕ := l.foldr max 0

theorem le_listSup : ∀ {l : List ℕ} {x : ℕ}, x ∈ l → x ≤ listSup l := by
  intro l
  induction l with
  | nil => intro x h; cases h
  | cons y l ih =>
    intro x h
    rcases List.mem_cons.mp h with rfl | h2
    · exact le_max_left _ _
    · exact le_trans (ih h2) (le_max_right _ _)

theorem listSup_mem : ∀ (l : List ℕ), listSup l = 0 ∨ listSup l ∈ l := by
  intro l
  induction l with
  | nil => exact Or.inl rfl
  | cons y l ih =>
    rcases le_total (listSup l) y with h | h
    · right
      have : listSup (y :: l) = y := max_eq_left h
      rw [this]
      exact List.mem_cons_self y l
    · rcases ih with h0 | hm
      · left
        show max y (listSup l) = 0
        omega
      · right
        have : listSup (y :: l) = listSup l := max_eq_right h
        rw [this]
        exact List.mem_cons_of_mem y hm

theorem foldl_max_eq (g : ℕ → ℕ) :
    ∀ (l : List ℕ) (a : ℕ),
      l.foldl (fun acc i => max acc (g i)) a = max a (listSup (l.map g)) := by
  intro l
  induction l with
  | nil => intro a; simp [listSup]
  | cons i l ih =>
    intro a
    show l.foldl _ (max a (g i)) = _
    rw [ih (max a (g i))]
    show max (max a (g i)) (listSup (l.map g)) = max a (max (g i) (listSup (l.map g)))
    exact max_assoc a (g i) (listSup (l.map g))

theorem nested_foldl_max_eq (f : ℕ → ℕ → ℕ) (l2 : List ℕ) :
    ∀ (l1 : List ℕ) (a : ℕ),
      l1.foldl (fun acc i => l2.foldl (fun acc2 j => max acc2 (f i j)) acc) a =
        max a (listSup (l1.map (fun i => listSup (l2.map (f i))))) := by
  intro l1
  induction l1 with
  | nil => intro a; simp [listSup]
  | cons i l1 ih =>
    intro a
    show l1.foldl _ (l2.foldl (fun acc2 j => max acc2 (f i j)) a) = _
    rw [ih, foldl_max_eq (f i) l2 a]
    show max (max a (listSup (l2.map (f i)))) _ = _
    rw [max_assoc]
    rfl

theorem longestCommon_eq (t1 t2 : List Char) :
    longestCommon t1 t2 =
      listSup ((List.range t1.length).map
        (fun i => listSup ((List.range t2.length).map
          (fun j => commonPrefixLen (t1.drop i) (t2.drop j))))) := by
  unfold longestCommon
  rw [nested_foldl_max_eq]
  exact Nat.zero_max _

theorem commonPrefixLen_le_left :
    ∀ (x y : List Char), commonPrefixLen x y ≤ x.length := by
  intro x
  induction x with
  | nil => intro y; cases y <;> simp [commonPrefixLen]
  | cons a s ih =>
    intro y
    cases y with
    | nil => simp [commonPrefixLen]
    | cons b t =>
      simp only [commonPrefixLen, List.length_cons]
      split
      · have := ih t; omega
      · omega

theorem take_commonPrefixLen_prefix_right :
    ∀ (x y : List Char), x.take (commonPrefixLen x y) <+: y := by
  intro x
  induction x with
  | nil =>
    intro y
    show ([] : List Char).take _ <+: y
    simp
  | cons a s ih =>
    intro y
    cases y with
    | nil =>
      show (a :: s).take (commonPrefixLen (a :: s) []) <+: []
      simp [commonPrefixLen]
    | cons b t =>
      simp only [commonPrefixLen]
      split
      · rename_i hab
        subst hab
        rw [List.take_succ_cons]
        exact List.cons_prefix_cons.mpr ⟨rfl, ih t⟩
      · simp

theorem prefix_le_commonPrefixLen :
    ∀ (u x y : List Char), u <+: x → u <+: y → u.length ≤ commonPrefixLen x y := by
  intro u
  induction u with
  | nil => intro x y _ _; simp
  | cons c u ih =>
    intro x y hx hy
    cases x with
    | nil => have := hx.length_le; simp at this
    | cons d x2 =>
      cases y with
      | nil => have := hy.length_le; simp at this
      | cons e y2 =>
        obtain ⟨hcd, hx2⟩ := List.cons_prefix_cons.mp hx
        obtain ⟨hce, hy2⟩ := List.cons_prefix_cons.mp hy
        subst hcd
        subst hce
        simp only [commonPrefixLen, List.length_cons, if_true]
        have := ih x2 y2 hx2 hy2
        omega

/-- The double loop finds a length that is attained by an actual common
contiguous substring. -/
theorem longestCommon_exists (t1 t2 : List Char) :
    ∃ u : List Char, u.length = longestCommon t1 t2 ∧ u <:+: t1 ∧ u <:+: t2 := by
  rcases Nat.eq_zero_or_pos (longestCommon t1 t2) with h0 | hpos
  · exact ⟨[], by simp [h0], List.nil_infix, List.nil_infix⟩
  · rw [longestCommon_eq] at hpos
    rcases listSup_mem ((List.range t1.length).map
        (fun i => listSup ((List.range t2.length).map
          (fun j => commonPrefixLen (t1.drop i) (t2.drop j))))) with hz | hm
    · omega
    · rcases List.mem_map.mp hm with ⟨i, _, hfi⟩
      rcases listSup_mem ((List.range t2.length).map
          (fun j => commonPrefixLen (t1.drop i) (t2.drop j))) with hz2 | hm2
      · rw [hfi] at hz2; omega
      · rcases List.mem_map.mp hm2 with ⟨j, _, hfj⟩
        refine ⟨(t1.drop i).take (commonPrefixLen (t1.drop i) (t2.drop j)), ?_, ?_, ?_⟩
        · rw [List.length_take,
            min_eq_left (commonPrefixLen_le_left (t1.drop i) (t2.drop j)), hfj, hfi,
            longestCommon_eq]
        · exact ((List.take_prefix _ _).isInfix).trans ((List.drop_suffix i t1).isInfix)
        · exact ((take_commonPrefixLen_prefix_right (t1.drop i) (t2.drop j)).isInfix).trans
            ((List.drop_suffix j t2).isInfix)

/-- No common contiguous substring is longer than the value computed by the
double loop. -/
theorem longestCommon_ub (t1 t2 : List Char) (u : List Char)
    (h1 : u <:+: t1) (h2 : u <:+: t2) : u.length ≤ longestCommon t1 t2 := by
  rcases eq_or_ne u [] with rfl | hne
  · simp
  · have hulen : 0 < u.length := List.length_pos.mpr hne
    obtain ⟨s1, r1, he1⟩ := h1
    obtain ⟨s2, r2, he2⟩ := h2
    have hu1 : u <+: t1.drop s1.length := by
      rw [← he1, List.append_assoc, List.drop_left]
      exact List.prefix_append u r1
    have hu2 : u <+: t2.drop s2.length := by
      rw [← he2, List.append_assoc, List.drop_left]
      exact List.prefix_append u r2
    have hi : s1.length < t1.length := by
      rw [← he1]; simp [List.length_append]; omega
    have hj : s2.length < t2.length := by
      rw [← he2]; simp [List.length_append]; omega
    have step1 : u.length ≤ commonPrefixLen (t1.drop s1.length) (t2.drop s2.length) :=
      prefix_le_commonPrefixLen u _ _ hu1 hu2
    have step2 : commonPrefixLen (t1.drop s1.length) (t2.drop s2.length) ≤
        listSup ((List.range t2.length).map
          (fun j => commonPrefixLen (t1.drop s1.length) (t2.drop j))) :=
      le_listSup (List.mem_map.mpr ⟨s2.length, List.mem_range.mpr hj, rfl⟩)
    have step3 : listSup ((List.range t2.length).map
          (fun j => commonPrefixLen (t1.drop s1.length) (t2.drop j))) ≤
        longestCommon t1 t2 := by
      rw [longestCommon_eq]
      exact le_listSup (List.mem_map.mpr ⟨s1.length, List.mem_range.mpr hi, rfl⟩)
    omega

/-! ### The blended similarity score. -/

theorem levSpec_le_max_length (s t : List Char) : levSpec s t ≤ max s.length t.length :=
  levSpec_le_max (s.length + t.length) s t le_rfl

theorem similarity_nonneg (a b : String) : 0 ≤ calculate_term_similarity a b := by
  simp only [calculate_term_similarity]
  split
  · norm_num
  · rename_i hne
    have h1 : (0 : ℚ) ≤ 0.2 := by norm_num
    have h2 : (0 : ℚ) ≤ 0.4 := by norm_num
    refine add_nonneg (add_nonneg (add_nonneg (mul_nonneg h1 ?_) (mul_nonneg h2 ?_))
      (mul_nonneg h1 ?_)) (mul_nonneg h1 ?_)
    · split
      · exact div_nonneg (Nat.cast_nonneg _) (Nat.cast_nonneg _)
      · exact le_rfl
    · split
      · exact div_nonneg (Nat.cast_nonneg _) (Nat.cast_nonneg _)
      · exact le_rfl
    · split
      · exact div_nonneg (Nat.cast_nonneg _) (Nat.cast_nonneg _)
      · exact le_rfl
    · split
      · rename_i hmax
        rw [sub_nonneg]
        have hd : levenshtein_distance (lowerStr a).data (lowerStr b).data ≤
            max (lowerStr a).data.length (lowerStr b).data.length := by
          rw [levenshtein_distance_eq]
          exact levSpec_le_max_length _ _
        have hposq : (0 : ℚ) < ((max (lowerStr a).data.length (lowerStr b).data.length : ℕ) : ℚ) := by
          exact_mod_cast hmax
        rw [div_le_one hposq]
        exact_mod_cast hd
      · exact le_rfl

/-- On lowercased-unequal inputs the similarity equals the unguarded
weighted formula (division by zero meaning zero). -/
theorem similarity_formula_of_ne (a b : String)
    (hne : (lowerStr a).data ≠ (lowerStr b).data) :
    calculate_term_similarity a b =
      0.2 * ((((lowerStr a).data.toFinset ∩ (lowerStr b).data.toFinset).card : ℚ) /
          (((lowerStr a).data.toFinset ∪ (lowerStr b).data.toFinset).card : ℚ)) +
      0.4 * ((((words (lowerStr a).data).toFinset ∩ (words (lowerStr b).data).toFinset).card : ℚ) /
          (((words (lowerStr a).data).toFinset ∪ (words (lowerStr b).data).toFinset).card : ℚ)) +
      0.2 * ((longestCommon (lowerStr a).data (lowerStr b).data : ℚ) /
          ((min (lowerStr a).data.length (lowerStr b).data.length : ℕ) : ℚ)) +
      0.2 * (1 - (levSpec (lowerStr a).data (lowerStr b).data : ℚ) /
          ((max (lowerStr a).data.length (lowerStr b).data.length : ℕ) : ℚ)) := by
  simp only [calculate_term_similarity]
  rw [if_neg hne]
  have hchar : ((lowerStr a).data.toFinset ∪ (lowerStr b).data.toFinset).Nonempty := by
    rcases eq_or_ne (lowerStr a).data [] with h1 | h1
    · rcases eq_or_ne (lowerStr b).data [] with h2 | h2
      · exact absurd (h1.trans h2.symm) hne
      · obtain ⟨c, hc⟩ := List.exists_mem_of_ne_nil _ h2
        exact ⟨c, by simp [hc]⟩
    · obtain ⟨c, hc⟩ := List.exists_mem_of_ne_nil _ h1
      exact ⟨c, by simp [hc]⟩
  rw [if_pos (Finset.card_pos.mpr hchar)]
  have hword :
      (if 0 < ((words (lowerStr a).data).toFinset ∪ (words (lowerStr b).data).toFinset).card
       then (((words (lowerStr a).data).toFinset ∩ (words (lowerStr b).data).toFinset).card : ℚ) /
          (((words (lowerStr a).data).toFinset ∪ (words (lowerStr b).data).toFinset).card : ℚ)
       else 0) =
        (((words (lowerStr a).data).toFinset ∩ (words (lowerStr b).data).toFinset).card : ℚ) /
          (((words (lowerStr a).data).toFinset ∪ (words (lowerStr b).data).toFinset).card : ℚ) := by
    split
    · rfl
    · rename_i hz
      have : ((words (lowerStr a).data).toFinset ∪ (words (lowerStr b).data).toFinset).card = 0 := by
        omega
      rw [this]
      simp
  rw [hword]
  have hsub :
      (if 0 < min (lowerStr a).data.length (lowerStr b).data.length
       then (longestCommon (lowerStr a).data (lowerStr b).data : ℚ) /
          ((min (lowerStr a).data.length (lowerStr b).data.length : ℕ) : ℚ)
       else 0) =
        (longestCommon (lowerStr a).data (lowerStr b).data : ℚ) /
          ((min (lowerStr a).data.length (lowerStr b).data.length : ℕ) : ℚ) := by
    split
    · rfl
    · rename_i hz
      have : min (lowerStr a).data.length (lowerStr b).data.length = 0 := by omega
      rw [this]
      simp
  rw [hsub]
  have hmax : 0 < max (lowerStr a).data.length (lowerStr b).data.length := by
    rcases Nat.eq_zero_or_pos (max (lowerStr a).data.length (lowerStr b).data.length) with hz | hp
    · exfalso
      have h1 : (lowerStr a).data.length = 0 := by omega
      have h2 : (lowerStr b).data.length = 0 := by omega
      exact hne ((List.length_eq_zero.mp h1).trans (List.length_eq_zero.mp h2).symm)
    · exact hp
  rw [if_pos hmax, levenshtein_distance_eq]

/-- C2.  For every pair of strings: if the lowercased strings are equal the
similarity is 1, otherwise it is exactly 0.2 times the character-set
Jaccard index plus 0.4 times the whitespace-token-set Jaccard index plus
0.2 times the longest-common-substring length over the shorter length plus
0.2 times (1 minus the Levenshtein distance over the longer length), where
the Levenshtein distance is the standard insert/delete/substitute edit
distance (`levSpec`, Mathlib levenshtein with unit costs) on the lowercased
strings, and `longestCommon` is the length of a longest common contiguous
substring (last two conjuncts).  Divisions by zero follow the rational
convention `x / 0 = 0`, which coincides with the guards of the source in
every reachable case. -/
theorem C2_similarity_blend (a b : String) :
    (calculate_term_similarity a b =
      if (lowerStr a).data = (lowerStr b).data then 1 else
        0.2 * ((((lowerStr a).data.toFinset ∩ (lowerStr b).data.toFinset).card : ℚ) /
            (((lowerStr a).data.toFinset ∪ (lowerStr b).data.toFinset).card : ℚ)) +
        0.4 * ((((words (lowerStr a).data).toFinset ∩ (words (lowerStr b).data).toFinset).card : ℚ) /
            (((words (lowerStr a).data).toFinset ∪ (words (lowerStr b).data).toFinset).card : ℚ)) +
        0.2 * ((longestCommon (lowerStr a).data (lowerStr b).data : ℚ) /
            ((min (lowerStr a).data.length (lowerStr b).data.length : ℕ) : ℚ)) +
        0.2 * (1 - (levSpec (lowerStr a).data (lowerStr b).data : ℚ) /
            ((max (lowerStr a).data.length (lowerStr b).data.length : ℕ) : ℚ))) ∧
    (∃ u, u.length = longestCommon (lowerStr a).data (lowerStr b).data ∧
      u <:+: (lowerStr a).data ∧ u <:+: (lowerStr b).data) ∧
    (∀ u, u <:+: (lowerStr a).data → u <:+: (lowerStr b).data →
      u.length ≤ longestCommon (lowerStr a).data (lowerStr b).data) := by
  refine ⟨?_, longestCommon_exists _ _, fun u h1 h2 => longestCommon_ub _ _ u h1 h2⟩
  split
  · rename_i heq
    simp [calculate_term_similarity, heq]
  · rename_i hne
    exact similarity_formula_of_ne a b hne

/-- Witness for C2 at the concrete unequal pair "cat"/"coat". -/
theorem C2_similarity_blend_witness :
    (lowerStr "cat").data ≠ (lowerStr "coat").data ∧
      calculate_term_similarity "cat" "coat" = 13 / 30 := by
  constructor
  · decide
  · have h := (C2_similarity_blend "cat" "coat").1
    rw [h]
    have e1 : ((lowerStr "cat").data.toFinset ∩ (lowerStr "coat").data.toFinset).card = 3 := rfl
    have e2 : ((lowerStr "cat").data.toFinset ∪ (lowerStr "coat").data.toFinset).card = 4 := rfl
    have e3 : ((words (lowerStr "cat").data).toFinset ∩
        (words (lowerStr "coat").data).toFinset).card = 0 := rfl
    have e4 : ((words (lowerStr "cat").data).toFinset ∪
        (words (lowerStr "coat").data).toFinset).card = 2 := rfl
    have e5 : longestCommon (lowerStr "cat").data (lowerStr "coat").data = 2 := rfl
    have e6 : levSpec (lowerStr "cat").data (lowerStr "coat").data = 1 := rfl
    have e7 : min (lowerStr "cat").data.length (lowerStr "coat").data.length = 3 := rfl
    have e8 : max (lowerStr "cat").data.length (lowerStr "coat").data.length = 4 := rfl
    rw [if_neg (by decide), e1, e2, e3, e4, e5, e6, e7, e8]
    norm_num

/-! ### The translation fallback chain. -/

/-- Stage 1: a direct table hit fills the result with the stored fields. -/
theorem translate_stage_direct (wild : List (String × WildEntry))
    (catmap : List (String × CatEntry)) (term : String) (e : WildEntry)
    (h : alookup wild term = some e) :
    translate_value_to_recursion wild catmap term none =
      { original_value := term, recursive_concept := e.recursive_concept,
        recursive_shell := e.recursive_shell, pareto_command := e.pareto_command,
        symbolic_glyph := e.symbolic_glyph, confidence := e.confidence.getD 0.85,
        context_note := none, note := none } := by
  simp only [translate_value_to_recursion, h]

/-- Stage 2: on a direct miss and a taxonomy hit the result is exactly the
taxonomy record; the similarity and keyword stages are never consulted. -/
theorem translate_stage_tax (wild : List (String × WildEntry))
    (catmap : List (String × CatEntry)) (term : String) (tr : TaxResult)
    (h1 : alookup wild term = none)
    (h2 : find_in_value_taxonomy catmap term = some tr) :
    translate_value_to_recursion wild catmap term none =
      { original_value := term, recursive_concept := some tr.recursive_concept,
        recursive_shell := tr.recursive_shell, pareto_command := tr.pareto_command,
        symbolic_glyph := tr.symbolic_glyph, confidence := tr.confidence,
        context_note := none, note := none } := by
  simp only [translate_value_to_recursion, h1, h2]

/-- Stages 3-5: when both lookups miss, the result is the approximation
record with its confidence capped at 0.6. -/
theorem translate_stage_approx (wild : List (String × WildEntry))
    (catmap : List (String × CatEntry)) (term : String)
    (h1 : alookup wild term = none)
    (h2 : find_in_value_taxonomy catmap term = none) :
    translate_value_to_recursion wild catmap term none =
      { original_value := term,
        recursive_concept := (approximate_value_translation wild term).recursive_concept,
        recursive_shell := (approximate_value_translation wild term).recursive_shell,
        pareto_command := (approximate_value_translation wild term).pareto_command,
        symbolic_glyph := (approximate_value_translation wild term).symbolic_glyph,
        confidence := min (approximate_value_translation wild term).confidence 0.6,
        context_note := none,
        note := some (approximate_value_translation wild term).note } := by
  simp only [translate_value_to_recursion, h1, h2]

/-- C1.  For every term that is a key of the direct source table,
`translate_value_to_recursion` copies the stored mapping fields into the
result unchanged and sets the confidence to the stored confidence,
defaulting to 0.85 when the entry has none. -/
theorem C1_direct_copy (wild : List (String × WildEntry))
    (catmap : List (String × CatEntry)) (term : String) (e : WildEntry)
    (h : alookup wild term = some e) :
    (translate_value_to_recursion wild catmap term none).recursive_concept =
        e.recursive_concept ∧
    (translate_value_to_recursion wild catmap term none).recursive_shell =
        e.recursive_shell ∧
    (translate_value_to_recursion wild catmap term none).pareto_command =
        e.pareto_command ∧
    (translate_value_to_recursion wild catmap term none).symbolic_glyph =
        e.symbolic_glyph ∧
    (translate_value_to_recursion wild catmap term none).confidence =
        e.confidence.getD 0.85 := by
  rw [translate_stage_direct wild catmap term e h]
  exact ⟨rfl, rfl, rfl, rfl, rfl⟩

/-- Witness for C1: the built-in table on "helpfulness" gives the recursive
concept "Functional Support" with confidence 0.95, and a one-entry table
whose entry carries no confidence gives the default 0.85. -/
theorem C1_direct_copy_witness :
    (translate_value_to_recursion values_in_wild_map value_category_map
        "helpfulness" none).recursive_concept = some "Functional Support" ∧
    (translate_value_to_recursion values_in_wild_map value_category_map
        "helpfulness" none).confidence = 0.95 ∧
    (translate_value_to_recursion [("x", { recursive_concept := some "X" })] []
        "x" none).confidence = 0.85 := by
  obtain ⟨hc, -, -, -, hconf⟩ :=
    C1_direct_copy values_in_wild_map value_category_map "helpfulness"
      { recursive_concept := some "Functional Support", recursive_shell := some "v1.MEMTRACE",
        pareto_command := some ".p/user.enable\x7bsupport=comprehensive\x7d",
        symbolic_glyph := some "⇌", confidence := some 0.95 } rfl
  obtain ⟨-, -, -, -, hconf2⟩ :=
    C1_direct_copy [("x", { recursive_concept := some "X" })] [] "x"
      { recursive_concept := some "X" } rfl
  refine ⟨hc, ?_, ?_⟩
  · rw [hconf]; rfl
  · rw [hconf2]; rfl

/-- C4.  A term absent from the direct table whose category lookup succeeds
is resolved by the taxonomy stage: the result is exactly the taxonomy
record (so the similarity and keyword stages can never contribute, whatever
they would have returned), the synthesized concept is the structural label
concatenated with the original term, and the confidence is 0.8 on a
subcategory-level match and 0.75 otherwise. -/
theorem C4_taxonomy_priority (wild : List (String × WildEntry))
    (catmap : List (String × CatEntry)) (term cname : String) (e : CatEntry)
    (hw : alookup wild term = none)
    (hc : find_value_category catmap term = some cname)
    (he : alookup catmap cname = some e) :
    ∃ tr, find_in_value_taxonomy catmap term = some tr ∧
      translate_value_to_recursion wild catmap term none =
        { original_value := term, recursive_concept := some tr.recursive_concept,
          recursive_shell := tr.recursive_shell, pareto_command := tr.pareto_command,
          symbolic_glyph := tr.symbolic_glyph, confidence := tr.confidence,
          context_note := none, note := none } ∧
      (tax_subpair catmap e term = none →
        tr.confidence = 0.75 ∧
        tr.recursive_concept = e.recursive_structure.getD "" ++ " - " ++ term) ∧
      (∀ sname se, tax_subpair catmap e term = some (sname, se) →
        tr.confidence = 0.8 ∧
        ∀ lbl, se.recursive_structure = some lbl →
          tr.recursive_concept = lbl ++ " - " ++ term) := by
  have htax : ∃ tr, find_in_value_taxonomy catmap term = some tr := by
    simp only [find_in_value_taxonomy, hc, he]
    exact ⟨_, rfl⟩
  obtain ⟨tr, htr⟩ := htax
  refine ⟨tr, htr, translate_stage_tax wild catmap term tr hw htr, ?_, ?_⟩
  · intro hnone
    simp only [find_in_value_taxonomy, hc, he, hnone] at htr
    obtain rfl := (Option.some_injective _ htr).symm
    exact ⟨rfl, rfl⟩
  · intro sname se hsome
    simp only [find_in_value_taxonomy, hc, he, hsome] at htr
    obtain rfl := (Option.some_injective _ htr).symm
    refine ⟨rfl, ?_⟩
    intro lbl hlbl
    simp [hlbl]

/-- Witness for C4: "role expertise" is not in the direct table but is a
member of the "Professional and Technical Excellence" subcategory of
"Practical", so it resolves at subcategory level with confidence 0.8. -/
theorem C4_taxonomy_priority_witness :
    alookup values_in_wild_map "role expertise" = none ∧
    (translate_value_to_recursion values_in_wild_map value_category_map
        "role expertise" none).confidence = 0.8 ∧
    (translate_value_to_recursion values_in_wild_map value_category_map
        "role expertise" none).recursive_concept =
      some "Competence Recursion - role expertise" := by
  obtain ⟨tr, htr, heq, -, hsome⟩ :=
    C4_taxonomy_priority values_in_wild_map value_category_map "role expertise"
      "Practical" _ rfl rfl rfl
  obtain ⟨hc08, hlbl⟩ := hsome "Professional and Technical Excellence" _ rfl
  have hcon := hlbl "Competence Recursion" rfl
  rw [heq]
  refine ⟨rfl, hc08, ?_⟩
  rw [hcon]
  rfl

/-! ### The similarity stage and its 0.6 cap (claim C3). -/

theorem longestCommon_le_min (t1 t2 : List Char) :
    longestCommon t1 t2 ≤ min t1.length t2.length := by
  obtain ⟨u, hlen, h1, h2⟩ := longestCommon_exists t1 t2
  rw [← hlen]
  exact le_min h1.length_le h2.length_le

/-- Two terms sharing no whitespace token have similarity at most 0.6: the
token Jaccard term vanishes and the other three weights sum to 0.6. -/
theorem similarity_le_of_no_common_token (a b : String)
    (hne : (lowerStr a).data ≠ (lowerStr b).data)
    (hdisj : (words (lowerStr a).data).toFinset ∩ (words (lowerStr b).data).toFinset = ∅) :
    calculate_term_similarity a b ≤ 0.6 := by
  rw [similarity_formula_of_ne a b hne, hdisj]
  have hc : (((lowerStr a).data.toFinset ∩ (lowerStr b).data.toFinset).card : ℚ) /
      (((lowerStr a).data.toFinset ∪ (lowerStr b).data.toFinset).card : ℚ) ≤ 1 := by
    rcases Nat.eq_zero_or_pos ((lowerStr a).data.toFinset ∪ (lowerStr b).data.toFinset).card
      with hz | hp
    · rw [hz]
      simp
    · rw [div_le_one (by exact_mod_cast hp)]
      exact_mod_cast Finset.card_le_card Finset.inter_subset_union
  have hs : (longestCommon (lowerStr a).data (lowerStr b).data : ℚ) /
      ((min (lowerStr a).data.length (lowerStr b).data.length : ℕ) : ℚ) ≤ 1 := by
    rcases Nat.eq_zero_or_pos (min (lowerStr a).data.length (lowerStr b).data.length)
      with hz | hp
    · rw [hz]
      simp
    · rw [div_le_one (by exact_mod_cast hp)]
      exact_mod_cast longestCommon_le_min _ _
  have he : 1 - (levSpec (lowerStr a).data (lowerStr b).data : ℚ) /
      ((max (lowerStr a).data.length (lowerStr b).data.length : ℕ) : ℚ) ≤ 1 := by
    have : (0 : ℚ) ≤ (levSpec (lowerStr a).data (lowerStr b).data : ℚ) /
        ((max (lowerStr a).data.length (lowerStr b).data.length : ℕ) : ℚ) :=
      div_nonneg (Nat.cast_nonneg _) (Nat.cast_nonneg _)
    linarith
  have hzero : ((∅ : Finset (List Char)).card : ℚ) /
      (((words (lowerStr a).data).toFinset ∪ (words (lowerStr b).data).toFinset).card : ℚ) = 0 := by
    simp
  rw [hzero]
  linarith

set_option maxRecDepth 8192 in
/-- Evaluation of the blended similarity at the counterexample pair: the
trailing-space variant of the key "clarity" scores 0.95. -/
theorem similarity_clarity_pair :
    calculate_term_similarity "clarity " "clarity" = 19 / 20 := by
  rw [similarity_formula_of_ne "clarity " "clarity" (by decide)]
  have e1 : ((lowerStr "clarity ").data.toFinset ∩ (lowerStr "clarity").data.toFinset).card = 7 :=
    rfl
  have e2 : ((lowerStr "clarity ").data.toFinset ∪ (lowerStr "clarity").data.toFinset).card = 8 :=
    rfl
  have e3 : ((words (lowerStr "clarity ").data).toFinset ∩
      (words (lowerStr "clarity").data).toFinset).card = 1 := rfl
  have e4 : ((words (lowerStr "clarity ").data).toFinset ∪
      (words (lowerStr "clarity").data).toFinset).card = 1 := rfl
  have e5 : longestCommon (lowerStr "clarity ").data (lowerStr "clarity").data = 7 := rfl
  have e6 : levSpec (lowerStr "clarity ").data (lowerStr "clarity").data = 1 := rfl
  have e7 : min (lowerStr "clarity ").data.length (lowerStr "clarity").data.length = 7 := rfl
  have e8 : max (lowerStr "clarity ").data.length (lowerStr "clarity").data.length = 8 := rfl
  rw [e1, e2, e3, e4, e5, e6, e7, e8]
  norm_num

theorem foldl_bestStep_stay_none (term : String) :
    ∀ (l : List (String × WildEntry)),
      (∀ p ∈ l, calculate_term_similarity term p.1 ≤ 0.7) →
      l.foldl (bestStep term) (none, 0) = (none, 0) := by
  intro l
  induction l with
  | nil => intro _; rfl
  | cons p l ih =>
    intro h
    have hp := h p (List.mem_cons_self p l)
    show l.foldl (bestStep term) (bestStep term (none, 0) p) = (none, 0)
    have hstep : bestStep term (none, 0) p = (none, 0) := by
      simp only [bestStep]
      rw [if_neg]
      rintro ⟨h1, -⟩
      exact absurd h1 (not_lt.mpr hp)
    rw [hstep]
    exact ih (fun q hq => h q (List.mem_cons_of_mem p hq))

theorem foldl_bestStep_stay_some (term k0 : String) (v : ℚ) :
    ∀ (l : List (String × WildEntry)),
      (∀ p ∈ l, calculate_term_similarity term p.1 ≤ v) →
      l.foldl (bestStep term) (some k0, v) = (some k0, v) := by
  intro l
  induction l with
  | nil => intro _; rfl
  | cons p l ih =>
    intro h
    have hp := h p (List.mem_cons_self p l)
    show l.foldl (bestStep term) (bestStep term (some k0, v) p) = (some k0, v)
    have hstep : bestStep term (some k0, v) p = (some k0, v) := by
      simp only [bestStep]
      rw [if_neg]
      rintro ⟨-, h2⟩
      exact absurd h2 (not_lt.mpr hp)
    rw [hstep]
    exact ih (fun q hq => h q (List.mem_cons_of_mem p hq))

/-- The best-match loop returns the unique key whose similarity exceeds the
threshold when every key before it stays at or below 0.7 and every key
after it scores no better. -/
theorem bestWildMatch_pinpoint (term k0 : String) (e0 : WildEntry) (v : ℚ)
    (pre post : List (String × WildEntry))
    (hpre : ∀ p ∈ pre, calculate_term_similarity term p.1 ≤ 0.7)
    (hk : calculate_term_similarity term k0 = v)
    (hv : 0.7 < v)
    (hpost : ∀ p ∈ post, calculate_term_similarity term p.1 ≤ v) :
    bestWildMatch (pre ++ (k0, e0) :: post) term = (some k0, v) := by
  unfold bestWildMatch
  rw [List.foldl_append, foldl_bestStep_stay_none term pre hpre]
  show post.foldl (bestStep term) (bestStep term (none, 0) (k0, e0)) = _
  have hstep : bestStep term (none, 0) (k0, e0) = (some k0, v) := by
    simp only [bestStep, hk]
    rw [if_pos ⟨hv, by linarith⟩]
  rw [hstep]
  exact foldl_bestStep_stay_some term k0 v post hpost

set_option maxRecDepth 8192 in
/-- The best match for "clarity " in the built-in table is the key "clarity"
with similarity 0.95: every other key shares no whitespace token with the
input and is therefore capped at 0.6. -/
theorem bestWildMatch_clarity_sp :
    bestWildMatch values_in_wild_map "clarity " = (some "clarity", 19 / 20) := by
  have hsplit : values_in_wild_map =
      values_in_wild_map.take 2 ++
        ("clarity",
          { recursive_concept := some "Cognitive Accessibility",
            recursive_shell := some "v3.LAYER-SALIENCE",
            pareto_command := some ".p/communicate.structure\x7bcomplexity=adaptive\x7d",
            symbolic_glyph := some "⇌", confidence := some 0.9 }) ::
        values_in_wild_map.drop 3 := rfl
  rw [hsplit]
  apply bestWildMatch_pinpoint "clarity " "clarity" _ (19 / 20)
  · intro p hp
    fin_cases hp <;>
      exact le_trans (similarity_le_of_no_common_token _ _ (by decide) (by decide))
        (by norm_num)
  · exact similarity_clarity_pair
  · norm_num
  · intro p hp
    fin_cases hp <;>
      exact le_trans (similarity_le_of_no_common_token _ _ (by decide) (by decide))
        (by norm_num)

/-- Invariant of the best-match fold: the running maximum only grows, a
selected key really attains it above the threshold, and every scanned key
either fails the threshold or scores no better than the result. -/
theorem bestStep_foldl_spec (term : String) :
    ∀ (l : List (String × WildEntry)) (acc : Option String × ℚ),
      (acc.1 = none → acc.2 = 0) →
      (∀ b, acc.1 = some b →
        0.7 < acc.2 ∧ calculate_term_similarity term b = acc.2) →
      ((l.foldl (bestStep term) acc).1 = none → (l.foldl (bestStep term) acc).2 = 0) ∧
      (∀ b, (l.foldl (bestStep term) acc).1 = some b →
        0.7 < (l.foldl (bestStep term) acc).2 ∧
        calculate_term_similarity term b = (l.foldl (bestStep term) acc).2) ∧
      acc.2 ≤ (l.foldl (bestStep term) acc).2 ∧
      (∀ p ∈ l, calculate_term_similarity term p.1 ≤ 0.7 ∨
        calculate_term_similarity term p.1 ≤ (l.foldl (bestStep term) acc).2) ∧
      (∀ b, (l.foldl (bestStep term) acc).1 = some b →
        acc.1 = some b ∨ ∃ e : WildEntry, (b, e) ∈ l) := by
  intro l
  induction l with
  | nil =>
    intro acc h1 h2
    exact ⟨h1, h2, le_rfl, by simp, fun b hb => Or.inl hb⟩
  | cons p l ih =>
    intro acc h1 h2
    rw [List.foldl_cons]
    by_cases hcond : 0.7 < calculate_term_similarity term p.1 ∧
        acc.2 < calculate_term_similarity term p.1
    · have hstep : bestStep term acc p = (some p.1, calculate_term_similarity term p.1) := by
        simp only [bestStep]
        rw [if_pos hcond]
      rw [hstep]
      obtain ⟨ih1, ih2, ih3, ih4, ih5⟩ := ih (some p.1, calculate_term_similarity term p.1)
        (by intro hc; simp at hc)
        (by
          rintro b hb
          obtain rfl := Option.some_injective _ hb
          exact ⟨hcond.1, rfl⟩)
      refine ⟨ih1, ih2, le_trans (le_of_lt hcond.2) ih3, ?_, ?_⟩
      · intro q hq
        rcases List.mem_cons.mp hq with rfl | hq2
        · exact Or.inr ih3
        · exact ih4 q hq2
      · intro b hb
        rcases ih5 b hb with hacc | ⟨e, he⟩
        · obtain rfl := Option.some_injective _ hacc
          right
          exact ⟨p.2, by rw [Prod.mk.eta]; exact List.mem_cons_self p l⟩
        · exact Or.inr ⟨e, List.mem_cons_of_mem p he⟩
    · have hstep : bestStep term acc p = acc := by
        simp only [bestStep]
        rw [if_neg hcond]
      rw [hstep]
      obtain ⟨ih1, ih2, ih3, ih4, ih5⟩ := ih acc h1 h2
      refine ⟨ih1, ih2, ih3, ?_, ?_⟩
      · intro q hq
        rcases List.mem_cons.mp hq with rfl | hq2
        · rcases le_or_lt (calculate_term_similarity term q.1) 0.7 with hle | hgt
          · exact Or.inl hle
          · have hle2 : calculate_term_similarity term q.1 ≤ acc.2 := by
              by_contra hcon
              exact hcond ⟨hgt, lt_of_not_le hcon⟩
            exact Or.inr (le_trans hle2 ih3)
        · exact ih4 q hq2
      · intro b hb
        rcases ih5 b hb with hacc | ⟨e, he⟩
        · exact Or.inl hacc
        · exact Or.inr ⟨e, List.mem_cons_of_mem p he⟩

/-- A selected best match attains the maximal similarity over all keys, above
the 0.7 threshold. -/
theorem bestWildMatch_some_spec (wild : List (String × WildEntry)) (term best : String)
    (h : (bestWildMatch wild term).1 = some best) :
    0.7 < (bestWildMatch wild term).2 ∧
    calculate_term_similarity term best = (bestWildMatch wild term).2 ∧
    ∀ p ∈ wild, calculate_term_similarity term p.1 ≤ (bestWildMatch wild term).2 := by
  obtain ⟨-, h2, -, h4, -⟩ := bestStep_foldl_spec term wild (none, 0) (fun _ => rfl) (by simp)
  obtain ⟨hgt, hsim⟩ := h2 best h
  refine ⟨hgt, hsim, ?_⟩
  intro p hp
  rcases h4 p hp with hle | hle
  · exact le_trans hle (le_of_lt hgt)
  · exact hle

/-- C3 (amended).  When both lookups miss and the similarity stage selects a
best match, the final result copies the best entry fields, its similarity
is maximal over all keys and above 0.7, and the confidence is the stored
confidence (default 0.8) times the maximal similarity, CAPPED AT 0.6 by the
approximation branch of `translate_value_to_recursion`. -/
theorem C3_amended_similarity_cap (wild : List (String × WildEntry))
    (catmap : List (String × CatEntry)) (term best : String) (m : WildEntry)
    (h1 : alookup wild term = none)
    (h2 : find_in_value_taxonomy catmap term = none)
    (hb : (bestWildMatch wild term).1 = some best)
    (hm : alookup wild best = some m) :
    0.7 < (bestWildMatch wild term).2 ∧
    calculate_term_similarity term best = (bestWildMatch wild term).2 ∧
    (∀ p ∈ wild, calculate_term_similarity term p.1 ≤ (bestWildMatch wild term).2) ∧
    translate_value_to_recursion wild catmap term none =
      { original_value := term, recursive_concept := m.recursive_concept,
        recursive_shell := m.recursive_shell, pareto_command := m.pareto_command,
        symbolic_glyph := m.symbolic_glyph,
        confidence := min (m.confidence.getD 0.8 * (bestWildMatch wild term).2) 0.6,
        context_note := none,
        note := some ("Approximate translation based on similarity with " ++ best) } := by
  obtain ⟨hgt, hsim, hall⟩ := bestWildMatch_some_spec wild term best hb
  refine ⟨hgt, hsim, hall, ?_⟩
  rw [translate_stage_approx wild catmap term h1 h2]
  have hpair : bestWildMatch wild term = (some best, (bestWildMatch wild term).2) := by
    rw [← hb]
  have happrox : approximate_value_translation wild term =
      { recursive_concept := m.recursive_concept, recursive_shell := m.recursive_shell,
        pareto_command := m.pareto_command, symbolic_glyph := m.symbolic_glyph,
        confidence := m.confidence.getD 0.8 * (bestWildMatch wild term).2,
        note := "Approximate translation based on similarity with " ++ best } := by
    unfold approximate_value_translation
    rw [hpair]
    simp only [hm]
  rw [happrox]

/-- Witness for the amended C3 at the concrete input "clarity ". -/
theorem C3_amended_similarity_cap_witness :
    (bestWildMatch values_in_wild_map "clarity ").1 = some "clarity" ∧
    (translate_value_to_recursion values_in_wild_map value_category_map
        "clarity " none).confidence = min ((0.9 : ℚ) * (19 / 20)) 0.6 := by
  have hb : (bestWildMatch values_in_wild_map "clarity ").1 = some "clarity" := by
    rw [bestWildMatch_clarity_sp]
  obtain ⟨-, -, -, heq⟩ := C3_amended_similarity_cap values_in_wild_map value_category_map
    "clarity " "clarity" _ rfl rfl hb rfl
  refine ⟨hb, ?_⟩
  rw [heq]
  show min (_ * (bestWildMatch values_in_wild_map "clarity ").2) 0.6 = _
  rw [bestWildMatch_clarity_sp]
  rfl

/-- Counterexample to C3 as stated: for the input "clarity " (a trailing
space added to the key "clarity"), both lookups miss, the best similarity
match is "clarity" with maximal similarity 0.95 and stored confidence 0.9,
yet the returned confidence is 0.6, not 0.9 times 0.95. -/
theorem C3_counterexample :
    alookup values_in_wild_map "clarity " = none ∧
    find_in_value_taxonomy value_category_map "clarity " = none ∧
    bestWildMatch values_in_wild_map "clarity " = (some "clarity", 19 / 20) ∧
    alookup values_in_wild_map "clarity" =
      some { recursive_concept := some "Cognitive Accessibility",
             recursive_shell := some "v3.LAYER-SALIENCE",
             pareto_command := some ".p/communicate.structure\x7bcomplexity=adaptive\x7d",
             symbolic_glyph := some "⇌", confidence := some 0.9 } ∧
    (translate_value_to_recursion values_in_wild_map value_category_map
        "clarity " none).confidence = 3 / 5 ∧
    (0.9 : ℚ) * (19 / 20) ≠ 3 / 5 := by
  refine ⟨rfl, rfl, bestWildMatch_clarity_sp, rfl, ?_, by norm_num⟩
  rw [translate_stage_approx values_in_wild_map value_category_map "clarity " rfl rfl]
  have happ : (approximate_value_translation values_in_wild_map "clarity ").confidence =
      (0.9 : ℚ) * (19 / 20) := by
    unfold approximate_value_translation
    rw [bestWildMatch_clarity_sp]
    rfl
  show min (approximate_value_translation values_in_wild_map "clarity ").confidence 0.6 = 3 / 5
  rw [happ]
  norm_num

/-! ### Confidence bounds and the single context adjustment (claim C5). -/

/-- A successful lookup returns the second component of some member pair. -/
theorem alookup_mem {β : Type} (m : List (String × β)) (k : String) (v : β)
    (h : alookup m k = some v) : ∃ p ∈ m, p.2 = v := by
  unfold alookup at h
  rcases hf : m.find? (fun p => p.1 = k) with _ | p
  · rw [hf] at h
    cases h
  · rw [hf] at h
    simp only [Option.map_some'] at h
    exact ⟨p, List.mem_of_find?_eq_some hf, Option.some_injective _ h⟩

/-- A key occurring in the list has a successful lookup. -/
theorem alookup_isSome_of_key {β : Type} (m : List (String × β)) (k : String)
    (e : β) (h : (k, e) ∈ m) : ∃ v, alookup m k = some v := by
  have hs : (m.find? (fun p => p.1 = k)).isSome := by
    rw [List.find?_isSome]
    exact ⟨(k, e), h, by simp⟩
  rcases ho : m.find? (fun p => p.1 = k) with _ | p
  · rw [ho] at hs
    simp at hs
  · exact ⟨p.2, by unfold alookup; rw [ho]; rfl⟩

/-- A best-match loop that selects no key reports similarity 0. -/
theorem bestWildMatch_none_pair (wild : List (String × WildEntry)) (term : String)
    (h : (bestWildMatch wild term).1 = none) :
    bestWildMatch wild term = (none, 0) := by
  obtain ⟨hz, -, -, -, -⟩ := bestStep_foldl_spec term wild (none, 0) (fun _ => rfl) (by simp)
  exact Prod.ext h (hz h)

/-- A selected best-match key is a key of the table, so the subsequent entry
lookup of the source cannot raise. -/
theorem bestWildMatch_some_key (wild : List (String × WildEntry)) (term best : String)
    (h : (bestWildMatch wild term).1 = some best) :
    ∃ m, alookup wild best = some m := by
  obtain ⟨-, -, -, -, h5⟩ := bestStep_foldl_spec term wild (none, 0) (fun _ => rfl) (by simp)
  rcases h5 best h with hacc | ⟨e, he⟩
  · simp at hacc
  · exact alookup_isSome_of_key wild best e he

/-- Similarity-stage equation of `_approximate_value_translation`. -/
theorem approx_sim_hit (wild : List (String × WildEntry)) (term best : String)
    (m : WildEntry) (v : ℚ) (hb : bestWildMatch wild term = (some best, v))
    (hm : alookup wild best = some m) :
    approximate_value_translation wild term =
      { recursive_concept := m.recursive_concept, recursive_shell := m.recursive_shell,
        pareto_command := m.pareto_command, symbolic_glyph := m.symbolic_glyph,
        confidence := m.confidence.getD 0.8 * v,
        note := "Approximate translation based on similarity with " ++ best } := by
  simp only [approximate_value_translation, hb, hm]

/-- Keyword-stage equation of `_approximate_value_translation`. -/
theorem approx_keyword_hit (wild : List (String × WildEntry)) (term : String)
    (kv : String × String) (hb : bestWildMatch wild term = (none, 0))
    (hk : value_keyword_map.find?
        (fun kv => (words (lowerStr term).data).any (fun k => isSubLst kv.1.data k)) =
      some kv) :
    approximate_value_translation wild term =
      { recursive_concept := some kv.2, recursive_shell := none, pareto_command := none,
        symbolic_glyph := none, confidence := 0.6,
        note := "Approximate translation based on keyword match with " ++ kv.1 } := by
  simp only [approximate_value_translation, hb, hk]

/-- Generic-stage equation of `_approximate_value_translation`. -/
theorem approx_generic_fallthrough (wild : List (String × WildEntry)) (term : String)
    (hb : bestWildMatch wild term = (none, 0))
    (hk : value_keyword_map.find?
        (fun kv => (words (lowerStr term).data).any (fun k => isSubLst kv.1.data k)) =
      none) :
    approximate_value_translation wild term =
      { recursive_concept := some ("Potential Value-Recursive Alignment - " ++ term),
        recursive_shell := none, pareto_command := none, symbolic_glyph := none,
        confidence := 0.4, note := "Generic approximation due to unknown value concept" } := by
  simp only [approximate_value_translation, hb, hk]

/-- Every entry of the built-in wild table has both effective confidences in
[0,1] and a non-null concept. -/
theorem wild_entry_facts :
    ∀ p ∈ values_in_wild_map,
      0 ≤ p.2.confidence.getD 0.85 ∧ p.2.confidence.getD 0.85 ≤ 1 ∧
      0 ≤ p.2.confidence.getD 0.8 ∧ p.2.confidence.getD 0.8 ≤ 1 ∧
      p.2.recursive_concept ≠ none := by
  intro p hp
  fin_cases hp <;>
    exact ⟨by norm_num [Option.getD], by norm_num [Option.getD], by norm_num [Option.getD],
      by norm_num [Option.getD], by simp⟩

/-- A taxonomy hit carries confidence 0.75 or (at subcategory level) 0.8. -/
theorem tax_confidence_cases (catmap : List (String × CatEntry)) (v : String)
    (tr : TaxResult) (h : find_in_value_taxonomy catmap v = some tr) :
    tr.confidence = 0.75 ∨ tr.confidence = 0.8 := by
  rcases h1 : find_value_category catmap v with _ | cname
  · simp only [find_in_value_taxonomy, h1] at h
    exact Option.noConfusion h
  · rcases h2 : alookup catmap cname with _ | e
    · simp only [find_in_value_taxonomy, h1, h2] at h
      exact Option.noConfusion h
    · rcases h3 : tax_subpair catmap e v with _ | pr
      · simp only [find_in_value_taxonomy, h1, h2, h3] at h
        obtain rfl := (Option.some_injective _ h).symm
        left
        rfl
      · obtain ⟨sname, se⟩ := pr
        simp only [find_in_value_taxonomy, h1, h2, h3] at h
        obtain rfl := (Option.some_injective _ h).symm
        right
        rfl

/-- Every domain of the fixed context table carries the modifier 1.1. -/
theorem ctx_modifier_eq : ∀ d ∈ context_domains, d.2.1 = (1.1 : ℚ) := by
  intro d hd
  fin_cases hd <;> rfl

/-- No matching domain: no adjustment. -/
theorem apply_ctx_none_eq (r : TranslationResult) (c : String)
    (hf : context_domains.find?
        (fun d => isSubLst (lowerStr d.1).data (lowerStr c).data) = none) :
    apply_context_adjustments r c false = none := by
  simp only [apply_context_adjustments, hf]

/-- A matching domain: one adjustment, the confidence boosted by the
modifier and clamped at 1. -/
theorem apply_ctx_some_eq (r : TranslationResult) (c dname dnote : String) (modifier : ℚ)
    (hf : context_domains.find?
        (fun d => isSubLst (lowerStr d.1).data (lowerStr c).data) =
      some (dname, modifier, dnote)) :
    ∃ cmd, apply_context_adjustments r c false =
      some { confidence := min 1 (r.confidence * modifier), context_note := dnote,
             pareto_command := cmd } := by
  simp only [apply_context_adjustments, hf]
  exact ⟨_, rfl⟩

/-- A call with a context is the context-free call post-processed by the
(at most one) context adjustment. -/
theorem translate_ctx_unfold (wild : List (String × WildEntry))
    (catmap : List (String × CatEntry)) (term c : String) :
    translate_value_to_recursion wild catmap term (some c) =
      match apply_context_adjustments
          (translate_value_to_recursion wild catmap term none) c false with
      | none => translate_value_to_recursion wild catmap term none
      | some adj =>
        { translate_value_to_recursion wild catmap term none with
          confidence := adj.confidence
          context_note := some adj.context_note
          pareto_command := match adj.pareto_command with
            | some p => some p
            | none => (translate_value_to_recursion wild catmap term none).pareto_command } :=
  rfl

/-- A context that matches no domain leaves the result unchanged. -/
theorem translate_ctx_nomatch (wild : List (String × WildEntry))
    (catmap : List (String × CatEntry)) (term c : String)
    (hf : context_domains.find?
        (fun d => isSubLst (lowerStr d.1).data (lowerStr c).data) = none) :
    translate_value_to_recursion wild catmap term (some c) =
      translate_value_to_recursion wild catmap term none := by
  rw [translate_ctx_unfold, apply_ctx_none_eq _ _ hf]

/-- A context matching a domain multiplies the confidence by that domain's
modifier, clamped at 1, and stamps the domain note. -/
theorem translate_ctx_match_conf (wild : List (String × WildEntry))
    (catmap : List (String × CatEntry)) (term c dname dnote : String) (modifier : ℚ)
    (hf : context_domains.find?
        (fun d => isSubLst (lowerStr d.1).data (lowerStr c).data) =
      some (dname, modifier, dnote)) :
    (translate_value_to_recursion wild catmap term (some c)).confidence =
      min 1 ((translate_value_to_recursion wild catmap term none).confidence * modifier) ∧
    (translate_value_to_recursion wild catmap term (some c)).recursive_concept =
      (translate_value_to_recursion wild catmap term none).recursive_concept ∧
    (translate_value_to_recursion wild catmap term (some c)).context_note = some dnote := by
  obtain ⟨cmd, hadj⟩ := apply_ctx_some_eq (translate_value_to_recursion wild catmap term none)
    c dname dnote modifier hf
  rw [translate_ctx_unfold, hadj]
  exact ⟨rfl, rfl, rfl⟩

/-- On the built-in table the approximation stage never reports a negative
confidence. -/
theorem approx_conf_nonneg (term : String) :
    0 ≤ (approximate_value_translation values_in_wild_map term).confidence := by
  rcases hb : (bestWildMatch values_in_wild_map term).1 with _ | best
  · have hpair := bestWildMatch_none_pair values_in_wild_map term hb
    rcases hk : value_keyword_map.find?
        (fun kv => (words (lowerStr term).data).any (fun k => isSubLst kv.1.data k))
      with _ | kv
    · rw [approx_generic_fallthrough values_in_wild_map term hpair hk]
      norm_num
    · rw [approx_keyword_hit values_in_wild_map term kv hpair hk]
      norm_num
  · obtain ⟨m, hm⟩ := bestWildMatch_some_key values_in_wild_map term best hb
    have hpair : bestWildMatch values_in_wild_map term =
        (some best, (bestWildMatch values_in_wild_map term).2) := by
      rw [← hb]
    rw [approx_sim_hit values_in_wild_map term best m _ hpair hm]
    have hv : (0 : ℚ) ≤ (bestWildMatch values_in_wild_map term).2 := by
      obtain ⟨-, -, h3, -, -⟩ := bestStep_foldl_spec term values_in_wild_map (none, 0)
        (fun _ => rfl) (by simp)
      exact h3
    obtain ⟨p, hp, hpe⟩ := alookup_mem values_in_wild_map best m hm
    obtain ⟨-, -, hc0, -, -⟩ := wild_entry_facts p hp
    show 0 ≤ m.confidence.getD 0.8 * (bestWildMatch values_in_wild_map term).2
    rw [← hpe]
    exact mul_nonneg hc0 hv

/-- The context-free confidence lies in [0,1] on the built-in tables,
whichever stage resolves the term. -/
theorem translate_base_conf_bounds (term : String) :
    0 ≤ (translate_value_to_recursion values_in_wild_map value_category_map
        term none).confidence ∧
    (translate_value_to_recursion values_in_wild_map value_category_map
        term none).confidence ≤ 1 := by
  rcases hd : alookup values_in_wild_map term with _ | e
  · rcases ht : find_in_value_taxonomy value_category_map term with _ | tr
    · rw [translate_stage_approx values_in_wild_map value_category_map term hd ht]
      constructor
      · exact le_min (approx_conf_nonneg term) (by norm_num)
      · exact le_trans (min_le_right _ _) (by norm_num)
    · rw [translate_stage_tax values_in_wild_map value_category_map term tr hd ht]
      show 0 ≤ tr.confidence ∧ tr.confidence ≤ 1
      rcases tax_confidence_cases value_category_map term tr ht with h | h <;> rw [h] <;>
        exact ⟨by norm_num, by norm_num⟩
  · rw [translate_stage_direct values_in_wild_map value_category_map term e hd]
    show 0 ≤ e.confidence.getD 0.85 ∧ e.confidence.getD 0.85 ≤ 1
    obtain ⟨p, hp, hpe⟩ := alookup_mem values_in_wild_map term e hd
    obtain ⟨h1, h2, -, -, -⟩ := wild_entry_facts p hp
    rw [← hpe]
    exact ⟨h1, h2⟩

/-- C5.  On the built-in tables the confidence of every translation lies in
[0,1] for every term and every optional context; a context hit multiplies
the context-free confidence by the matched domain's fixed modifier 1.1
(which is greater than 1), clamped at 1, only the first matching domain
ever being applied, and a context miss leaves the whole result unchanged. -/
theorem C5_confidence_bounds (term : String) (ctx : Option String) :
    (0 ≤ (translate_value_to_recursion values_in_wild_map value_category_map
          term ctx).confidence ∧
      (translate_value_to_recursion values_in_wild_map value_category_map
          term ctx).confidence ≤ 1) ∧
    (∀ (c dname dnote : String) (modifier : ℚ), ctx = some c →
      context_domains.find?
          (fun d => isSubLst (lowerStr d.1).data (lowerStr c).data) =
        some (dname, modifier, dnote) →
      1 < modifier ∧
      (translate_value_to_recursion values_in_wild_map value_category_map
          term ctx).confidence =
        min 1
          ((translate_value_to_recursion values_in_wild_map value_category_map
              term none).confidence * modifier)) ∧
    (∀ c : String, ctx = some c →
      context_domains.find?
          (fun d => isSubLst (lowerStr d.1).data (lowerStr c).data) = none →
      translate_value_to_recursion values_in_wild_map value_category_map term ctx =
        translate_value_to_recursion values_in_wild_map value_category_map term none) := by
  obtain ⟨hb0, hb1⟩ := translate_base_conf_bounds term
  refine ⟨?_, ?_, ?_⟩
  · rcases ctx with _ | c
    · exact ⟨hb0, hb1⟩
    · rcases hf : context_domains.find?
          (fun d => isSubLst (lowerStr d.1).data (lowerStr c).data) with _ | d
      · rw [translate_ctx_nomatch values_in_wild_map value_category_map term c hf]
        exact ⟨hb0, hb1⟩
      · obtain ⟨dname, modifier, dnote⟩ := d
        obtain ⟨hconf, -, -⟩ := translate_ctx_match_conf values_in_wild_map value_category_map
          term c dname dnote modifier hf
        rw [hconf]
        have hmod : modifier = 1.1 :=
          ctx_modifier_eq (dname, modifier, dnote) (List.mem_of_find?_eq_some hf)
        constructor
        · exact le_min (by norm_num) (mul_nonneg hb0 (by rw [hmod]; norm_num))
        · exact min_le_left _ _
  · rintro c dname dnote modifier rfl hf
    obtain ⟨hconf, -, -⟩ := translate_ctx_match_conf values_in_wild_map value_category_map
      term c dname dnote modifier hf
    have hmod : modifier = 1.1 :=
      ctx_modifier_eq (dname, modifier, dnote) (List.mem_of_find?_eq_some hf)
    exact ⟨by rw [hmod]; norm_num, hconf⟩
  · rintro c rfl hf
    exact translate_ctx_nomatch values_in_wild_map value_category_map term c hf

/-- Witness for C5: the context "discussing ai safety" matches the "ai
safety" domain and boosts the direct-hit confidence 0.95 of "helpfulness"
to min 1 (0.95 * 1.1) = 1, staying inside [0,1]. -/
theorem C5_confidence_bounds_witness :
    (translate_value_to_recursion values_in_wild_map value_category_map
        "helpfulness" (some "discussing ai safety")).confidence = 1 := by
  obtain ⟨-, h2, -⟩ := C5_confidence_bounds "helpfulness" (some "discussing ai safety")
  have h3 := h2 "discussing ai safety" "ai safety" "AI safety context" 1.1 rfl rfl
  rw [h3.2]
  rw [translate_stage_direct values_in_wild_map value_category_map "helpfulness"
    { recursive_concept := some "Functional Support", recursive_shell := some "v1.MEMTRACE",
      pareto_command := some ".p/user.enable\x7bsupport=comprehensive\x7d",
      symbolic_glyph := some "⇌", confidence := some 0.95 } rfl]
  show min 1 ((0.95 : ℚ) * 1.1) = 1
  norm_num

/-! ### Totality and the generic placeholder (claim C6). -/

/-- The empty string scores similarity 0 against every nonempty term. -/
theorem similarity_empty_left (b : String) (hb : (lowerStr b).data ≠ []) :
    calculate_term_similarity "" b = 0 := by
  have h0 : (lowerStr "").data = ([] : List Char) := rfl
  have hne : (lowerStr "").data ≠ (lowerStr b).data := by
    rw [h0]
    intro h
    exact hb h.symm
  rw [similarity_formula_of_ne "" b hne, h0]
  rw [show words ([] : List Char) = [] from rfl]
  rw [show longestCommon ([] : List Char) (lowerStr b).data = 0 from rfl]
  rw [levSpec_nil_left]
  have hlen : (((lowerStr b).data.length : ℕ) : ℚ) ≠ 0 := by
    have := List.length_pos.mpr hb
    exact_mod_cast Nat.pos_iff_ne_zero.mp this
  simp only [List.toFinset_nil, Finset.empty_inter, Finset.card_empty, Nat.cast_zero, zero_div,
    mul_zero, List.length_nil, Nat.zero_min, Nat.zero_max, div_self hlen]
  norm_num

/-- The empty string fails the similarity stage: no key of the built-in table
reaches the 0.7 threshold. -/
theorem bestWildMatch_empty :
    bestWildMatch values_in_wild_map "" = (none, 0) := by
  unfold bestWildMatch
  apply foldl_bestStep_stay_none
  intro p hp
  fin_cases hp <;> rw [similarity_empty_left _ (by decide)] <;> norm_num

/-- Every context-free result embeds the queried term verbatim. -/
theorem translate_none_original (wild : List (String × WildEntry))
    (catmap : List (String × CatEntry)) (t : String) :
    (translate_value_to_recursion wild catmap t none).original_value = t := by
  rcases hd : alookup wild t with _ | e
  · rcases ht : find_in_value_taxonomy catmap t with _ | tr
    · rw [translate_stage_approx wild catmap t hd ht]
    · rw [translate_stage_tax wild catmap t tr hd ht]
  · rw [translate_stage_direct wild catmap t e hd]

/-- The context adjustment touches neither the original value nor the
concept. -/
theorem translate_ctx_preserves (wild : List (String × WildEntry))
    (catmap : List (String × CatEntry)) (t c : String) :
    (translate_value_to_recursion wild catmap t (some c)).original_value =
      (translate_value_to_recursion wild catmap t none).original_value ∧
    (translate_value_to_recursion wild catmap t (some c)).recursive_concept =
      (translate_value_to_recursion wild catmap t none).recursive_concept := by
  rw [translate_ctx_unfold]
  rcases apply_context_adjustments (translate_value_to_recursion wild catmap t none) c false
    with _ | adj
  · exact ⟨rfl, rfl⟩
  · exact ⟨rfl, rfl⟩

/-- On the built-in tables every stage synthesizes a concept, so the result's
concept is never null. -/
theorem translate_concept_ne_none (t : String) :
    (translate_value_to_recursion values_in_wild_map value_category_map
      t none).recursive_concept ≠ none := by
  rcases hd : alookup values_in_wild_map t with _ | e
  · rcases ht : find_in_value_taxonomy value_category_map t with _ | tr
    · rw [translate_stage_approx values_in_wild_map value_category_map t hd ht]
      show (approximate_value_translation values_in_wild_map t).recursive_concept ≠ none
      rcases hb : (bestWildMatch values_in_wild_map t).1 with _ | best
      · have hpair := bestWildMatch_none_pair values_in_wild_map t hb
        rcases hk : value_keyword_map.find?
            (fun kv => (words (lowerStr t).data).any (fun k => isSubLst kv.1.data k))
          with _ | kv
        · rw [approx_generic_fallthrough values_in_wild_map t hpair hk]
          simp
        · rw [approx_keyword_hit values_in_wild_map t kv hpair hk]
          simp
      · obtain ⟨m, hm⟩ := bestWildMatch_some_key values_in_wild_map t best hb
        have hpair : bestWildMatch values_in_wild_map t =
            (some best, (bestWildMatch values_in_wild_map t).2) := by
          rw [← hb]
        rw [approx_sim_hit values_in_wild_map t best m _ hpair hm]
        show m.recursive_concept ≠ none
        obtain ⟨p, hp, hpe⟩ := alookup_mem values_in_wild_map best m hm
        obtain ⟨-, -, -, -, hc⟩ := wild_entry_facts p hp
        rw [← hpe]
        exact hc
    · rw [translate_stage_tax values_in_wild_map value_category_map t tr hd ht]
      simp
  · rw [translate_stage_direct values_in_wild_map value_category_map t e hd]
    show e.recursive_concept ≠ none
    obtain ⟨p, hp, hpe⟩ := alookup_mem values_in_wild_map t e hd
    obtain ⟨-, -, -, -, hc⟩ := wild_entry_facts p hp
    rw [← hpe]
    exact hc

/-- C6.  The translation pipeline is total on the built-in tables: a term
failing every lookup stage falls through to the generic placeholder that
embeds the term verbatim with confidence fixed at 0.4, and every call, on
any string and any optional context, returns a well-formed result that
carries the queried term verbatim and a non-null concept (the Lean model is
a total function, mirroring the no-raise behavior of the source). -/
theorem C6_generic_fallback (term : String)
    (h1 : alookup values_in_wild_map term = none)
    (h2 : find_in_value_taxonomy value_category_map term = none)
    (h3 : (bestWildMatch values_in_wild_map term).1 = none)
    (h4 : value_keyword_map.find?
        (fun kv => (words (lowerStr term).data).any (fun k => isSubLst kv.1.data k)) = none) :
    (translate_value_to_recursion values_in_wild_map value_category_map
        term none).recursive_concept =
      some ("Potential Value-Recursive Alignment - " ++ term) ∧
    (translate_value_to_recursion values_in_wild_map value_category_map
        term none).confidence = 0.4 ∧
    (∀ (t : String) (c : Option String),
      (translate_value_to_recursion values_in_wild_map value_category_map t c).original_value =
        t ∧
      (translate_value_to_recursion values_in_wild_map value_category_map t c).recursive_concept ≠
        none) := by
  have hpair := bestWildMatch_none_pair values_in_wild_map term h3
  have happ := approx_generic_fallthrough values_in_wild_map term hpair h4
  rw [translate_stage_approx values_in_wild_map value_category_map term h1 h2, happ]
  refine ⟨rfl, ?_, ?_⟩
  · show min (0.4 : ℚ) 0.6 = 0.4
    norm_num
  · intro t c
    rcases c with _ | c
    · exact ⟨translate_none_original values_in_wild_map value_category_map t,
        translate_concept_ne_none t⟩
    · obtain ⟨ho, hc⟩ := translate_ctx_preserves values_in_wild_map value_category_map t c
      rw [ho, hc]
      exact ⟨translate_none_original values_in_wild_map value_category_map t,
        translate_concept_ne_none t⟩

/-- Witness for C6 at the empty string: every stage misses and the result is
the generic placeholder with confidence 0.4. -/
theorem C6_generic_fallback_witness :
    (translate_value_to_recursion values_in_wild_map value_category_map
        "" none).recursive_concept = some "Potential Value-Recursive Alignment - " ∧
    (translate_value_to_recursion values_in_wild_map value_category_map
        "" none).confidence = 0.4 := by
  obtain ⟨h1, h2, -⟩ := C6_generic_fallback "" rfl rfl (by rw [bestWildMatch_empty]) rfl
  exact ⟨by rw [h1]; rfl, h2⟩

/-! ### The comparator's preservation report (claims C7, C8, C10). -/

/-- The detection boolean of the comparator is the decision of the source's
three-way disjunction over value fraction, pattern fraction and coherence
impact. -/
theorem reframing_detected_iff (o r : AnalysisView) :
    (detect_reframing_core o r).reframing_detected = true ↔
      ((detect_reframing_core o r).value_preservation_frac < 0.7 ∨
       (detect_reframing_core o r).pattern_preservation_frac < 0.7 ∨
       (detect_reframing_core o r).field_coherence_impact > 0.3) := by
  show decide ((detect_reframing_core o r).value_preservation_frac < 0.7 ∨
      (detect_reframing_core o r).pattern_preservation_frac < 0.7 ∨
      (detect_reframing_core o r).field_coherence_impact > 0.3) = true ↔ _
  exact decide_eq_true_iff

/-- C7.  For every pair of analysis views the comparator's value-preservation
report is exact set algebra: preserved is the intersection of the detected
value sets, lost is original minus revised, new is revised minus original,
and the preservation fraction is |preserved| / max(|original|, 1); on the
concrete scenario original values {"a","b"} against revised values {"a"}
this gives preserved {"a"}, lost {"b"}, new {} and fraction 1/2. -/
theorem C7_preservation_sets (o r : AnalysisView) :
    ((detect_reframing_core o r).preserved_values =
        o.detected_values.toFinset ∩ r.detected_values.toFinset ∧
      (detect_reframing_core o r).lost_values =
        o.detected_values.toFinset \ r.detected_values.toFinset ∧
      (detect_reframing_core o r).new_values =
        r.detected_values.toFinset \ o.detected_values.toFinset ∧
      (detect_reframing_core o r).value_preservation_frac =
        ((o.detected_values.toFinset ∩ r.detected_values.toFinset).card : ℚ) /
          ((max o.detected_values.toFinset.card 1 : ℕ) : ℚ)) ∧
    ((detect_reframing_core ⟨["a", "b"], [], 0, ""⟩ ⟨["a"], [], 0, ""⟩).preserved_values =
        {"a"} ∧
      (detect_reframing_core ⟨["a", "b"], [], 0, ""⟩ ⟨["a"], [], 0, ""⟩).lost_values = {"b"} ∧
      (detect_reframing_core ⟨["a", "b"], [], 0, ""⟩ ⟨["a"], [], 0, ""⟩).new_values = ∅ ∧
      (detect_reframing_core ⟨["a", "b"], [], 0, ""⟩
          ⟨["a"], [], 0, ""⟩).value_preservation_frac = 1 / 2) := by
  refine ⟨⟨rfl, rfl, rfl, rfl⟩, ?_, ?_, ?_, ?_⟩
  · decide
  · decide
  · decide
  · show ((List.toFinset ["a", "b"] ∩ List.toFinset ["a"]).card : ℚ) /
        ((max (List.toFinset ["a", "b"]).card 1 : ℕ) : ℚ) = 1 / 2
    rw [show (List.toFinset ["a", "b"] ∩ List.toFinset ["a"]).card = 1 from rfl,
      show max (List.toFinset ["a", "b"]).card 1 = 2 from rfl]
    norm_num

/-- C8 (amended).  The comparator trips detection if and only if the value
preservation fraction is below 0.7 OR the recursive-pattern preservation
fraction is below 0.7 OR the coherence impact exceeds 0.3: the source has
three independent triggers, one more than the two the claim sentence
names. -/
theorem C8_amended_detection_triggers (o r : AnalysisView) :
    (detect_reframing_core o r).reframing_detected = true ↔
      ((detect_reframing_core o r).value_preservation_frac < 0.7 ∨
       (detect_reframing_core o r).pattern_preservation_frac < 0.7 ∨
       (detect_reframing_core o r).field_coherence_impact > 0.3) :=
  reframing_detected_iff o r

/-- Counterexample to C8 as stated: a pair preserving every detected value
(fraction 1) with zero coherence impact still trips detection, because the
source also triggers on the recursive-pattern fraction (here 0 < 0.7), a
third disjunct the claim omits. -/
theorem C8_counterexample :
    (detect_reframing_core ⟨["a"], ["p"], 0, ""⟩ ⟨["a"], [], 0, ""⟩).reframing_detected =
      true ∧
    ¬ ((detect_reframing_core ⟨["a"], ["p"], 0, ""⟩
        ⟨["a"], [], 0, ""⟩).value_preservation_frac < 0.7) ∧
    ¬ ((detect_reframing_core ⟨["a"], ["p"], 0, ""⟩
        ⟨["a"], [], 0, ""⟩).field_coherence_impact > 0.3) := by
  have hvp : (detect_reframing_core ⟨["a"], ["p"], 0, ""⟩
      ⟨["a"], [], 0, ""⟩).value_preservation_frac = ((1 : ℕ) : ℚ) / ((1 : ℕ) : ℚ) := by
    show ((List.toFinset ["a"] ∩ List.toFinset ["a"]).card : ℚ) /
        ((max (List.toFinset ["a"]).card 1 : ℕ) : ℚ) = ((1 : ℕ) : ℚ) / ((1 : ℕ) : ℚ)
    rw [show (List.toFinset ["a"] ∩ List.toFinset ["a"]).card = 1 from rfl,
      show max (List.toFinset ["a"]).card 1 = 1 from rfl]
  have hrp : (detect_reframing_core ⟨["a"], ["p"], 0, ""⟩
      ⟨["a"], [], 0, ""⟩).pattern_preservation_frac = ((0 : ℕ) : ℚ) / ((1 : ℕ) : ℚ) := by
    show ((List.toFinset ["p"] ∩ List.toFinset ([] : List String)).card : ℚ) /
        ((max (List.length ["p"]) 1 : ℕ) : ℚ) = ((0 : ℕ) : ℚ) / ((1 : ℕ) : ℚ)
    rw [show (List.toFinset ["p"] ∩ List.toFinset ([] : List String)).card = 0 from rfl,
      show max (List.length ["p"]) 1 = 1 from rfl]
  have himp : (detect_reframing_core ⟨["a"], ["p"], 0, ""⟩
      ⟨["a"], [], 0, ""⟩).field_coherence_impact = (0 : ℚ) - 0 := rfl
  refine ⟨?_, ?_, ?_⟩
  · rw [reframing_detected_iff]
    refine Or.inr (Or.inl ?_)
    rw [hrp]
    norm_num
  · rw [hvp]
    norm_num
  · rw [himp]
    norm_num

/-! ### One semantic hit per glyph group (claim C9). -/

theorem detect_semantic_eq_foldl (table : List (String × List String)) (text : String)
    (init : List GlyphDetection) :
    detect_semantic_equivalents table text init = table.foldl (semanticStep text) init := rfl

/-- Starting from detections none of which is explicit, the semantic scan is
exactly one optional detection per glyph group: the first equivalent that
occurs in the text, at confidence 0.75 and type "semantic". -/
theorem foldl_semanticStep_filterMap (text : String) :
    ∀ (table : List (String × List String)) (init : List GlyphDetection),
      (∀ d ∈ init, d.detection_type ≠ "explicit") →
      table.foldl (semanticStep text) init =
        init ++ table.filterMap (fun p =>
          (p.2.find? (fun e => isSubLst (lowerStr e).data (lowerStr text).data)).map
            (fun e => { glyph := p.1, semantic_match := e, confidence := 0.75,
                        detection_type := "semantic" })) := by
  intro table
  induction table with
  | nil =>
    intro init h
    simp
  | cons p rest ih =>
    intro init h
    rw [List.foldl_cons]
    rcases hf : p.2.find? (fun e => isSubLst (lowerStr e).data (lowerStr text).data) with _ | e
    · have hstep : semanticStep text init p = init := by
        simp only [semanticStep, hf]
      rw [hstep, ih init h]
      simp only [List.filterMap_cons, hf, Option.map_none']
    · have hany : init.any (fun d => d.glyph == p.1 && d.detection_type == "explicit") = false := by
        rw [List.any_eq_false]
        intro d hd
        simp only [Bool.and_eq_true, beq_iff_eq, not_and]
        intro _
        exact h d hd
      have hstep : semanticStep text init p =
          init ++ [{ glyph := p.1, semantic_match := e, confidence := 0.75, detection_type := "semantic" }] := by
        simp [semanticStep, hf, hany]
      have hinit2 : ∀ d ∈ init ++ [({ glyph := p.1, semantic_match := e, confidence := 0.75, detection_type := "semantic" } : GlyphDetection)], d.detection_type ≠ "explicit" := by
        intro d hd
        rcases List.mem_append.mp hd with h1 | h2
        · exact h d h1
        · have hd2 : d = { glyph := p.1, semantic_match := e, confidence := 0.75, detection_type := "semantic" } := by
            simpa using h2
          rw [hd2]
          show ("semantic" : String) ≠ "explicit"
          decide
      have hih := ih (init ++ [({ glyph := p.1, semantic_match := e, confidence := 0.75, detection_type := "semantic" } : GlyphDetection)]) hinit2
      rw [hstep, hih]
      simp only [List.filterMap_cons, hf, Option.map_some', List.append_assoc,
        List.singleton_append]

set_option maxRecDepth 8192 in
/-- C9.  Semantic keyword detection, started from a clean slate, emits at
most one hit per glyph group: per group exactly the first configured
equivalent occurring case-insensitively in the text (if any), always at
confidence 0.75 and type "semantic"; scanning the concrete text
"This is fully recursive and self-referential." against a group listing
both "recursive" and "self-referential" yields exactly one hit, for the
first-listed equivalent "recursive". -/
theorem C9_semantic_single_hit (table : List (String × List String)) (text : String) :
    (detect_semantic_equivalents table text [] =
      table.filterMap (fun p =>
        (p.2.find? (fun e => isSubLst (lowerStr e).data (lowerStr text).data)).map
          (fun e => { glyph := p.1, semantic_match := e, confidence := 0.75,
                      detection_type := "semantic" }))) ∧
    (∀ d ∈ detect_semantic_equivalents table text [],
      d.confidence = 0.75 ∧ d.detection_type = "semantic") ∧
    detect_semantic_equivalents [("self_reference", ["recursive", "self-referential"])]
        "This is fully recursive and self-referential." [] =
      [{ glyph := "self_reference", semantic_match := "recursive", confidence := 0.75,
         detection_type := "semantic" }] := by
  have h1 : detect_semantic_equivalents table text [] =
      table.filterMap (fun p =>
        (p.2.find? (fun e => isSubLst (lowerStr e).data (lowerStr text).data)).map
          (fun e => { glyph := p.1, semantic_match := e, confidence := 0.75,
                      detection_type := "semantic" })) := by
    rw [detect_semantic_eq_foldl,
      foldl_semanticStep_filterMap text table [] (fun d hd => absurd hd (List.not_mem_nil d))]
    exact List.nil_append _
  refine ⟨h1, ?_, rfl⟩
  intro d hd
  rw [h1] at hd
  obtain ⟨p, hp, hfp⟩ := List.mem_filterMap.mp hd
  obtain ⟨e, he, hde⟩ := Option.map_eq_some'.mp hfp
  rw [← hde]
  exact ⟨rfl, rfl⟩

/-! ### Empty value analyses always trip detection (claim C10). -/

/-- When detection trips, the reported type is the ordered rule evaluation on
the four factors and the new-element sets. -/
theorem reframing_type_eq (o r : AnalysisView)
    (hd : (detect_reframing_core o r).reframing_detected = true) :
    (detect_reframing_core o r).reframing_type =
      some (determine_reframing_type
        (detect_reframing_core o r).value_preservation_frac
        (detect_reframing_core o r).pattern_preservation_frac
        (detect_reframing_core o r).attribution_preservation
        (detect_reframing_core o r).field_coherence_impact
        (detect_reframing_core o r).new_values
        (detect_reframing_core o r).new_patterns) := by
  show (if (detect_reframing_core o r).reframing_detected = true
      then some (determine_reframing_type
        (detect_reframing_core o r).value_preservation_frac
        (detect_reframing_core o r).pattern_preservation_frac
        (detect_reframing_core o r).attribution_preservation
        (detect_reframing_core o r).field_coherence_impact
        (detect_reframing_core o r).new_values
        (detect_reframing_core o r).new_patterns)
      else none) = _
  rw [if_pos hd]

/-- When detection trips, the reported confidence is the four-factor mean. -/
theorem reframing_confidence_eq (o r : AnalysisView)
    (hd : (detect_reframing_core o r).reframing_detected = true) :
    (detect_reframing_core o r).confidence =
      calculate_reframing_confidence
        (detect_reframing_core o r).value_preservation_frac
        (detect_reframing_core o r).pattern_preservation_frac
        (detect_reframing_core o r).attribution_preservation
        (detect_reframing_core o r).field_coherence_impact := by
  show (if (detect_reframing_core o r).reframing_detected = true
      then calculate_reframing_confidence
        (detect_reframing_core o r).value_preservation_frac
        (detect_reframing_core o r).pattern_preservation_frac
        (detect_reframing_core o r).attribution_preservation
        (detect_reframing_core o r).field_coherence_impact
      else 0) = _
  rw [if_pos hd]

/-- The pattern preservation fraction of a self-comparison is at most 1. -/
theorem self_pattern_frac_le_one (o : AnalysisView) :
    (detect_reframing_core o o).pattern_preservation_frac ≤ 1 := by
  show ((o.detected_patterns.toFinset ∩ o.detected_patterns.toFinset).card : ℚ) /
      ((max o.detected_patterns.length 1 : ℕ) : ℚ) ≤ 1
  have hc : (o.detected_patterns.toFinset ∩ o.detected_patterns.toFinset).card ≤
      max o.detected_patterns.length 1 :=
    le_trans (le_trans (Finset.card_le_card Finset.inter_subset_left)
      o.detected_patterns.toFinset_card_le) (le_max_left _ _)
  have hpos : (0 : ℚ) < ((max o.detected_patterns.length 1 : ℕ) : ℚ) := by
    exact_mod_cast Nat.lt_of_lt_of_le Nat.zero_lt_one (le_max_right _ _)
  rw [div_le_one hpos]
  exact_mod_cast hc

/-- The attribution factor of a self-comparison lies in [0,1]. -/
theorem self_attr_bounds (o : AnalysisView) :
    0 ≤ (detect_reframing_core o o).attribution_preservation ∧
    (detect_reframing_core o o).attribution_preservation ≤ 1 := by
  show (0 ≤ if o.attribution_signature ≠ "" ∧ o.attribution_signature ≠ ""
      then (if o.attribution_signature = o.attribution_signature then (1 : ℚ) else 0) else 0) ∧
    ((if o.attribution_signature ≠ "" ∧ o.attribution_signature ≠ ""
      then (if o.attribution_signature = o.attribution_signature then (1 : ℚ) else 0) else 0) ≤ 1)
  constructor <;> split_ifs <;> norm_num

/-- C10.  The implicit flaw is real: whenever the original analysis detects
no values, the value preservation fraction is 0 / max(0, 1) = 0, so
detection trips against EVERY revised analysis—including the analysis of
the identical text—and the pair is classified "complete_value_erasure";
the self-comparison moreover reports a strictly positive confidence even
though nothing changed. -/
theorem C10_empty_values_always_detect (o r : AnalysisView)
    (h : o.detected_values = []) :
    (detect_reframing_core o r).value_preservation_frac = 0 ∧
    (detect_reframing_core o r).reframing_detected = true ∧
    (detect_reframing_core o r).reframing_type = some "complete_value_erasure" ∧
    0 < (detect_reframing_core o o).confidence := by
  have hvp : ∀ r2 : AnalysisView, (detect_reframing_core o r2).value_preservation_frac = 0 := by
    intro r2
    show ((o.detected_values.toFinset ∩ r2.detected_values.toFinset).card : ℚ) /
        ((max o.detected_values.toFinset.card 1 : ℕ) : ℚ) = 0
    rw [h]
    simp
  have hdet : ∀ r2 : AnalysisView, (detect_reframing_core o r2).reframing_detected = true := by
    intro r2
    exact (reframing_detected_iff o r2).mpr (Or.inl (by rw [hvp r2]; norm_num))
  refine ⟨hvp r, hdet r, ?_, ?_⟩
  · rw [reframing_type_eq o r (hdet r), hvp r]
    simp only [determine_reframing_type]
    rw [if_pos (by norm_num : (0 : ℚ) < 0.2)]
  · rw [reframing_confidence_eq o o (hdet o)]
    simp only [calculate_reframing_confidence]
    rw [hvp o]
    have himp : (detect_reframing_core o o).field_coherence_impact = 0 := by
      show o.field_coherence - o.field_coherence = 0
      exact sub_self _
    rw [himp]
    have hrp := self_pattern_frac_le_one o
    have hattr := (self_attr_bounds o).2
    have hmin : min (1 : ℚ) 0 = 0 := by norm_num
    rw [hmin]
    linarith

/-- Witness for C10: comparing the empty analysis view with itself still
reports reframing, of type "complete_value_erasure", with positive
confidence. -/
theorem C10_empty_values_always_detect_witness :
    (detect_reframing_core ⟨[], [], 0, ""⟩ ⟨[], [], 0, ""⟩).reframing_detected = true ∧
    (detect_reframing_core ⟨[], [], 0, ""⟩ ⟨[], [], 0, ""⟩).reframing_type =
      some "complete_value_erasure" ∧
    0 < (detect_reframing_core ⟨[], [], 0, ""⟩ ⟨[], [], 0, ""⟩).confidence := by
  obtain ⟨-, h2, h3, h4⟩ :=
    C10_empty_values_always_detect ⟨[], [], 0, ""⟩ ⟨[], [], 0, ""⟩ rfl
  exact ⟨h2, h3, h4⟩

end UT
